import Mathlib

/-!
# Bombman: a shallow embedding of `src/game.js`

The class `BombermanGame` is embedded as a record `Game` of its mutable fields and
one Lean function per method.  Conventions:

* JavaScript numbers that hold integers are `Int` (coordinates, timers, counters);
  the map holds the numbers 0 (empty), 1 (solid wall) and 2 (breakable wall) as `Nat`.
* `this.map[y][x]` is `cellAt map x y : Option Nat`; `none` stands for `undefined`.
* `Math.random()` is a draw from an explicit stream `Rng` of rolls; a roll is an exact
  fraction `num / den` with `num < den`, that is a number in `[0, 1)`.
* The only unbounded loop, the `do ... while` of `initializeLevel`, takes fuel and
  returns `none` when the fuel runs out.
* Rendering, the DOM and `alert` are not part of the state.
-/

namespace Bombman

/-! ## Constants of the constructor -/

/-- The field `this.rows`. -/
def rows : Nat := 15

/-- The field `this.cols`. -/
def cols : Nat := 20

/-- The length of `this.backgroundColors`. -/
def backgroundColorsLength : Nat := 12

/-! ## Randomness -/

/-- One outcome of `Math.random()`: the number `num / den`, which lies in `[0, 1)`. -/
structure Roll where
  num : Nat
  den : Nat
  lt : num < den

/-- The test `Math.random() < pn / pd` for the roll `r`. -/
def Roll.below (r : Roll) (pn pd : Nat) : Bool :=
  decide (r.num * pd < pn * r.den)

/-- The number `Math.floor(Math.random() * n)` for the roll `r`. -/
def Roll.floorMul (r : Roll) (n : Nat) : Nat :=
  r.num * n / r.den

/-- The stream of the outcomes of the successive calls of `Math.random()`. -/
abbrev Rng := Nat → Roll

/-- The stream that remains after `k` calls of `Math.random()`. -/
def Rng.drop (rng : Rng) (k : Nat) : Rng :=
  fun n => rng (n + k)

/-! ## Data model -/

/-- The field `this.map`: a list of rows, each a list of cell codes. -/
abbrev Grid := List (List Nat)

/-- The read `map[y][x]`; `none` is JavaScript's `undefined`. -/
def cellAt (m : Grid) (x y : Int) : Option Nat :=
  if x < 0 ∨ y < 0 then none
  else
    match m[y.toNat]? with
    | none => none
    | some row => row[x.toNat]?

/-- The write `map[y][x] = v` at a position that exists in the map. -/
def setCell (m : Grid) (x y : Int) (v : Nat) : Grid :=
  if x < 0 ∨ y < 0 then m
  else
    match m[y.toNat]? with
    | none => m
    | some row => m.set y.toNat (row.set x.toNat v)

/-- The object `this.player` (its constant colour is left out). -/
structure Player where
  x : Int
  y : Int
  bombCount : Int
  bombRange : Int
  deriving DecidableEq, Repr

/-- An element of `this.bombs`. -/
structure Bomb where
  x : Int
  y : Int
  timer : Int
  range : Int
  deriving DecidableEq, Repr

/-- An element of `this.explosions`. -/
structure Explosion where
  x : Int
  y : Int
  timer : Int
  deriving DecidableEq, Repr

/-- An element of `this.enemies` (its constant colour is left out). -/
structure Enemy where
  x : Int
  y : Int
  direction : Nat
  moveTimer : Int
  deriving DecidableEq, Repr

/-- The field `type` of a powerup: the string 'bomb' or 'range'. -/
inductive PowerupType where
  | bomb
  | range
  deriving DecidableEq, Repr

/-- The field `color` of a powerup: '#00FF00' (green) or '#0080FF' (blue). -/
inductive PowerupColor where
  | green
  | blue
  deriving DecidableEq, Repr

/-- An element of `this.powerups`. -/
structure Powerup where
  x : Int
  y : Int
  type : PowerupType
  color : PowerupColor
  deriving DecidableEq, Repr

/-- The mutable fields of a `BombermanGame`. -/
structure Game where
  score : Int
  lives : Int
  level : Int
  gameRunning : Bool
  currentBgIndex : Nat
  player : Player
  bombs : List Bomb
  explosions : List Explosion
  enemies : List Enemy
  powerups : List Powerup
  map : Grid
  deriving DecidableEq, Repr

/-- The field `this.keys`, read at the eight key codes that `handleInput` looks at. -/
structure Keys where
  KeyW : Bool
  ArrowUp : Bool
  KeyS : Bool
  ArrowDown : Bool
  KeyA : Bool
  ArrowLeft : Bool
  KeyD : Bool
  ArrowRight : Bool
  deriving DecidableEq, Repr

/-- A direction vector `{ x, y }`. -/
structure Dir where
  x : Int
  y : Int
  deriving DecidableEq, Repr

/-- The array `directions` of `explodeBomb` and `updateEnemies`: up, down, left, right. -/
def directions : List Dir :=
  [⟨0, -1⟩, ⟨0, 1⟩, ⟨-1, 0⟩, ⟨1, 0⟩]

/-! ## Movement -/

/-- The method `canMoveTo(x, y)`. -/
def canMoveTo (g : Game) (x y : Int) : Bool :=
  if x < 0 ∨ x ≥ (cols : Int) ∨ y < 0 ∨ y ≥ (rows : Int) then false
  else if cellAt g.map x y = some 1 ∨ cellAt g.map x y = some 2 then false
  else if g.bombs.any (fun b => decide (b.x = x ∧ b.y = y)) then false
  else true

/-- The method `handleInput()`, for the held keys `keys`. -/
def handleInput (keys : Keys) (g : Game) : Game :=
  let y1 := if keys.KeyW || keys.ArrowUp then g.player.y - 1 else g.player.y
  let y2 := if keys.KeyS || keys.ArrowDown then y1 + 1 else y1
  let x1 := if keys.KeyA || keys.ArrowLeft then g.player.x - 1 else g.player.x
  let x2 := if keys.KeyD || keys.ArrowRight then x1 + 1 else x1
  if canMoveTo g x2 y2 then { g with player := { g.player with x := x2, y := y2 } }
  else g

/-! ## Bombs and explosions -/

/-- The method `dropBomb()`. -/
def dropBomb (g : Game) : Game :=
  if (g.bombs.length : Int) ≥ g.player.bombCount then g
  else if g.bombs.any (fun b => decide (b.x = g.player.x ∧ b.y = g.player.y)) then g
  else { g with bombs := g.bombs ++ [⟨g.player.x, g.player.y, 120, g.player.bombRange⟩] }

/-- The inner loop `for (let i = 1; i <= bomb.range; i++)` of `explodeBomb` for the
direction `dir`, entered at step `i` with `n` steps left. -/
def explodeRay (bomb : Bomb) (dir : Dir) : Nat → Nat → Rng → Game → Game × Rng
  | 0, _, rng, g => (g, rng)
  | n + 1, i, rng, g =>
    let x := bomb.x + dir.x * (i : Int)
    let y := bomb.y + dir.y * (i : Int)
    if x < 0 ∨ x ≥ (cols : Int) ∨ y < 0 ∨ y ≥ (rows : Int) then (g, rng)
    else if cellAt g.map x y = some 1 then (g, rng)
    else
      let g1 := { g with explosions := g.explosions ++ [⟨x, y, 30⟩] }
      if cellAt g1.map x y = some 2 then
        let g2 := { g1 with map := setCell g1.map x y 0, score := g1.score + 10 }
        if (rng 0).below 3 10 then
          let type := if (rng 1).below 1 2 then PowerupType.bomb else PowerupType.range
          let color := if (rng 2).below 1 2 then PowerupColor.green else PowerupColor.blue
          ({ g2 with powerups := g2.powerups ++ [⟨x, y, type, color⟩] }, rng.drop 3)
        else (g2, rng.drop 1)
      else explodeRay bomb dir n (i + 1) rng g1

/-- The outer loop `for (let dir of directions)` of `explodeBomb`. -/
def explodeRays (bomb : Bomb) : List Dir → Rng → Game → Game × Rng
  | [], rng, g => (g, rng)
  | dir :: dirs, rng, g =>
    let r := explodeRay bomb dir bomb.range.toNat 1 rng g
    explodeRays bomb dirs r.2 r.1

/-- The method `explodeBomb(bomb)`. -/
def explodeBomb (bomb : Bomb) (rng : Rng) (g : Game) : Game × Rng :=
  explodeRays bomb directions rng
    { g with explosions := g.explosions ++ [⟨bomb.x, bomb.y, 30⟩] }

/-- The statement `bombs[i].timer--` on the bomb `b`. -/
def tickBomb (b : Bomb) : Bomb :=
  { b with timer := b.timer - 1 }

/-- The loop of `updateBombs()`, which runs `i` from `n - 1` down to `0`. -/
def updateBombsLoop : Nat → Rng → Game → Game × Rng
  | 0, rng, g => (g, rng)
  | i + 1, rng, g =>
    match g.bombs[i]? with
    | none => updateBombsLoop i rng g
    | some b =>
      let g1 := { g with bombs := g.bombs.set i (tickBomb b) }
      if (tickBomb b).timer ≤ 0 then
        let r := explodeBomb (tickBomb b) rng g1
        updateBombsLoop i r.2 { r.1 with bombs := r.1.bombs.eraseIdx i }
      else updateBombsLoop i rng g1

/-- The method `updateBombs()`. -/
def updateBombs (rng : Rng) (g : Game) : Game × Rng :=
  updateBombsLoop g.bombs.length rng g

/-- The statement `explosions[i].timer--` on the explosion `e`. -/
def tickExplosion (e : Explosion) : Explosion :=
  { e with timer := e.timer - 1 }

/-- The loop of `updateExplosions()`, which runs `i` from `n - 1` down to `0`. -/
def updateExplosionsLoop : Nat → Game → Game
  | 0, g => g
  | i + 1, g =>
    match g.explosions[i]? with
    | none => updateExplosionsLoop i g
    | some e =>
      let g1 := { g with explosions := g.explosions.set i (tickExplosion e) }
      if (tickExplosion e).timer ≤ 0 then
        updateExplosionsLoop i { g1 with explosions := g1.explosions.eraseIdx i }
      else updateExplosionsLoop i g1

/-- The method `updateExplosions()`. -/
def updateExplosions (g : Game) : Game :=
  updateExplosionsLoop g.explosions.length g

/-! ## Enemies -/

/-- The body of the loop of `updateEnemies()` for one enemy. -/
def updateEnemy (g : Game) (enemy : Enemy) (rng : Rng) : Enemy × Rng :=
  let e1 : Enemy := { enemy with moveTimer := enemy.moveTimer + 1 }
  if e1.moveTimer ≥ 30 then
    let e2 : Enemy := { e1 with moveTimer := 0 }
    match directions[e2.direction]? with
    | none => (e2, rng)
    | some dir =>
      let newX := e2.x + dir.x
      let newY := e2.y + dir.y
      let moved := canMoveTo g newX newY
      let e3 : Enemy := if moved then { e2 with x := newX, y := newY } else e2
      if !moved then ({ e3 with direction := (rng 0).floorMul 4 }, rng.drop 1)
      else if (rng 0).below 3 10 then
        ({ e3 with direction := (rng 1).floorMul 4 }, rng.drop 2)
      else (e3, rng.drop 1)
  else (e1, rng)

/-- The loop `for (let enemy of this.enemies)` of `updateEnemies()`; the map and the
bombs that `canMoveTo` reads are those of `g`, which the loop does not change. -/
def updateEnemiesList (g : Game) : List Enemy → Rng → List Enemy × Rng
  | [], rng => ([], rng)
  | enemy :: rest, rng =>
    let r := updateEnemy g enemy rng
    let rs := updateEnemiesList g rest r.2
    (r.1 :: rs.1, rs.2)

/-- The method `updateEnemies()`. -/
def updateEnemies (rng : Rng) (g : Game) : Game × Rng :=
  let r := updateEnemiesList g g.enemies rng
  ({ g with enemies := r.1 }, r.2)

/-! ## Collisions -/

/-- The method `gameOver()` (the alert is not modelled). -/
def gameOver (g : Game) : Game :=
  { g with gameRunning := false }

/-- The method `playerHit()`. -/
def playerHit (g : Game) : Game :=
  let g1 := { g with lives := g.lives - 1 }
  if g1.lives ≤ 0 then gameOver g1
  else { g1 with player := { g1.player with x := 1, y := 1 } }

/-- The method `changeBackgroundColor()` (the style of the page is not modelled). -/
def changeBackgroundColor (g : Game) : Game :=
  { g with currentBgIndex := (g.currentBgIndex + 1) % backgroundColorsLength }

/-- The enemy-explosion loop of `checkCollisions()`, with `i` from `n - 1` down to `0`. -/
def enemyExplosionLoop : Nat → Game → Game
  | 0, g => g
  | i + 1, g =>
    match g.enemies[i]? with
    | none => enemyExplosionLoop i g
    | some en =>
      if g.explosions.any (fun ex => decide (en.x = ex.x ∧ en.y = ex.y)) then
        enemyExplosionLoop i
          (changeBackgroundColor
            { g with enemies := g.enemies.eraseIdx i, score := g.score + 100 })
      else enemyExplosionLoop i g

/-- The effect of a picked-up powerup on the player. -/
def applyPowerup (p : Powerup) (pl : Player) : Player :=
  match p.type with
  | PowerupType.bomb => { pl with bombCount := pl.bombCount + 1 }
  | PowerupType.range => { pl with bombRange := pl.bombRange + 1 }

/-- The player-powerup loop of `checkCollisions()`, with `i` from `n - 1` down to `0`. -/
def powerupLoop : Nat → Game → Game
  | 0, g => g
  | i + 1, g =>
    match g.powerups[i]? with
    | none => powerupLoop i g
    | some p =>
      if p.x = g.player.x ∧ p.y = g.player.y then
        powerupLoop i
          { g with player := applyPowerup p g.player,
                   powerups := g.powerups.eraseIdx i,
                   score := g.score + 50 }
      else powerupLoop i g

/-- The method `checkCollisions()`. -/
def checkCollisions (g : Game) : Game :=
  if g.enemies.any (fun en => decide (en.x = g.player.x ∧ en.y = g.player.y)) then
    playerHit g
  else if g.explosions.any (fun ex => decide (ex.x = g.player.x ∧ ex.y = g.player.y)) then
    playerHit g
  else
    let g1 := enemyExplosionLoop g.enemies.length g
    powerupLoop g1.powerups.length g1

/-! ## Level generation -/

/-- The body of the map loops of `initializeLevel()` for the cell in `row` and `col`. -/
def genCell (row col : Nat) (rng : Rng) : Nat × Rng :=
  if row = 0 ∨ row = rows - 1 ∨ col = 0 ∨ col = cols - 1 then (1, rng)
  else if row % 2 = 0 ∧ col % 2 = 0 then (1, rng)
  else if (rng 0).below 3 10 && !(decide (row ≤ 2) && decide (col ≤ 2)) then
    (2, rng.drop 1)
  else (0, rng.drop 1)

/-- The inner map loop over `col`, with `n` columns left. -/
def genRow (row : Nat) : Nat → Nat → Rng → List Nat × Rng
  | 0, _, rng => ([], rng)
  | n + 1, col, rng =>
    let c := genCell row col rng
    let cs := genRow row n (col + 1) c.2
    (c.1 :: cs.1, cs.2)

/-- The outer map loop over `row`, with `n` rows left. -/
def genRows : Nat → Nat → Rng → Grid × Rng
  | 0, _, rng => ([], rng)
  | n + 1, row, rng =>
    let r := genRow row cols 0 rng
    let rs := genRows n (row + 1) r.2
    (r.1 :: rs.1, rs.2)

/-- The map part of `initializeLevel()`: the two loops and the cleared start area. -/
def generateMap (rng : Rng) : Grid × Rng :=
  let r := genRows rows 0 rng
  (setCell (setCell (setCell r.1 1 1 0) 2 1 0) 1 2 0, r.2)

/-- The `do ... while` loop of `initializeLevel()` that draws a position for one enemy;
`none` when the fuel is used up before an admissible position is drawn. -/
def placeEnemy : Nat → Grid → Rng → Option (Int × Int × Rng)
  | 0, _, _ => none
  | fuel + 1, m, rng =>
    let x : Int := ((rng 0).floorMul (cols - 2) : Nat) + 1
    let y : Int := ((rng 1).floorMul (rows - 2) : Nat) + 1
    if cellAt m x y ≠ some 0 ∨ (x ≤ 3 ∧ y ≤ 3) then placeEnemy fuel m (rng.drop 2)
    else some (x, y, rng.drop 2)

/-- The enemy loop of `initializeLevel()`, with `n` enemies left to add. -/
def addEnemies (fuel : Nat) : Nat → Rng → Game → Option (Game × Rng)
  | 0, rng, g => some (g, rng)
  | n + 1, rng, g =>
    match placeEnemy fuel g.map rng with
    | none => none
    | some (x, y, rng1) =>
      addEnemies fuel n (rng1.drop 1)
        { g with enemies := g.enemies ++ [⟨x, y, (rng1 0).floorMul 4, 0⟩] }

/-- The method `initializeLevel()`. -/
def initializeLevel (fuel : Nat) (rng : Rng) (g : Game) : Option (Game × Rng) :=
  let r := generateMap rng
  addEnemies fuel (3 + g.level).toNat r.2 { g with map := r.1, enemies := [] }

/-! ## The run controller -/

/-- The method `nextLevel()`. -/
def nextLevel (fuel : Nat) (rng : Rng) (g : Game) : Option (Game × Rng) :=
  initializeLevel fuel rng { g with level := g.level + 1, score := g.score + 500 }

/-- The method `restart()`. -/
def restart (fuel : Nat) (rng : Rng) (g : Game) : Option (Game × Rng) :=
  initializeLevel fuel rng
    { g with score := 0, lives := 3, level := 1, gameRunning := true,
             player := { g.player with x := 1, y := 1, bombCount := 1, bombRange := 2 },
             bombs := [], explosions := [], powerups := [] }

/-- The state part of the constructor: the field initialisers, then `initializeLevel()`. -/
def construct (fuel : Nat) (rng : Rng) : Option (Game × Rng) :=
  initializeLevel fuel rng
    { score := 0, lives := 3, level := 1, gameRunning := true, currentBgIndex := 0,
      player := ⟨1, 1, 1, 2⟩, bombs := [], explosions := [], enemies := [],
      powerups := [], map := [] }

/-- The method `update()`, for the held keys `keys` (`updatePowerups` and `updateUI`
change no field). -/
def update (fuel : Nat) (keys : Keys) (rng : Rng) (g : Game) : Option (Game × Rng) :=
  if !g.gameRunning then some (g, rng)
  else
    let g1 := handleInput keys g
    let r2 := updateBombs rng g1
    let g3 := updateExplosions r2.1
    let r4 := updateEnemies r2.2 g3
    let g5 := checkCollisions r4.1
    if g5.enemies.length = 0 then nextLevel fuel r4.2 g5
    else some (g5, r4.2)

/-- The key snapshot with no key held. -/
def noKeys : Keys :=
  ⟨false, false, false, false, false, false, false, false⟩

/-- The states the game can be in: the constructed state and whatever `update` ticks
(any keys, any rolls), `dropBomb` calls and `restart` calls lead to from it. -/
inductive Reachable : Game → Prop
  | construct (fuel : Nat) (rng : Rng) (g : Game) (r : Rng) :
      construct fuel rng = some (g, r) → Reachable g
  | update (fuel : Nat) (keys : Keys) (rng : Rng) (g g1 : Game) (r : Rng) :
      Reachable g → update fuel keys rng g = some (g1, r) → Reachable g1
  | dropBomb (g : Game) : Reachable g → Reachable (dropBomb g)
  | restart (fuel : Nat) (rng : Rng) (g g1 : Game) (r : Rng) :
      Reachable g → restart fuel rng g = some (g1, r) → Reachable g1

/-! ## The detonation as the specification words it -/

/-- The position `(x, y)` lies inside the grid. -/
def InBounds (x y : Int) : Prop :=
  0 ≤ x ∧ x < (cols : Int) ∧ 0 ≤ y ∧ y < (rows : Int)

instance (x y : Int) : Decidable (InBounds x y) := by
  unfold InBounds
  infer_instance

/-- The x coordinate of the cell `i` steps from the bomb in direction `dir`. -/
def rayX (bomb : Bomb) (dir : Dir) (i : Nat) : Int :=
  bomb.x + dir.x * (i : Int)

/-- The y coordinate of the cell `i` steps from the bomb in direction `dir`. -/
def rayY (bomb : Bomb) (dir : Dir) (i : Nat) : Int :=
  bomb.y + dir.y * (i : Int)

/-- The specification's condition for step `i` of a ray to carry an explosion, on the
map `m`: every cell at steps `1..i` is in bounds and not a solid wall, and no cell at
steps `1..i-1` is a breakable wall. -/
def RayCovers (m : Grid) (bomb : Bomb) (dir : Dir) (i : Nat) : Prop :=
  (∀ j ∈ List.range' 1 i,
      InBounds (rayX bomb dir j) (rayY bomb dir j) ∧
        cellAt m (rayX bomb dir j) (rayY bomb dir j) ≠ some 1) ∧
    ∀ j ∈ List.range' 1 (i - 1), cellAt m (rayX bomb dir j) (rayY bomb dir j) ≠ some 2

instance (m : Grid) (bomb : Bomb) (dir : Dir) (i : Nat) :
    Decidable (RayCovers m bomb dir i) := by
  unfold RayCovers
  infer_instance

/-- The specification's explosions of one ray: one per covered step `1..R`. -/
def specRay (m : Grid) (bomb : Bomb) (dir : Dir) : List Explosion :=
  ((List.range' 1 bomb.range.toNat).filter (fun i => decide (RayCovers m bomb dir i))).map
    (fun i => ⟨rayX bomb dir i, rayY bomb dir i, 30⟩)

/-- The specification's destroyed cells of one ray: the covered steps `1..R` whose cell
is a breakable wall (the first breakable wall of the ray, if it is reached). -/
def specHits (m : Grid) (bomb : Bomb) (dir : Dir) : List (Int × Int) :=
  ((List.range' 1 bomb.range.toNat).filter (fun i =>
      decide (RayCovers m bomb dir i ∧
        cellAt m (rayX bomb dir i) (rayY bomb dir i) = some 2))).map
    (fun i => (rayX bomb dir i, rayY bomb dir i))

/-! ## Notions used in the detonation proofs -/

/-- Every step `1..k` of the ray is in bounds and neither a solid nor a breakable wall. -/
def RayOpen (m : Grid) (bomb : Bomb) (dir : Dir) (k : Nat) : Prop :=
  ∀ j, 1 ≤ j → j ≤ k →
    InBounds (rayX bomb dir j) (rayY bomb dir j) ∧
      cellAt m (rayX bomb dir j) (rayY bomb dir j) ≠ some 1 ∧
      cellAt m (rayX bomb dir j) (rayY bomb dir j) ≠ some 2

/-- The steps `i..i+n-1` of a ray that carry an explosion. -/
def coveredSteps (m : Grid) (bomb : Bomb) (dir : Dir) (i n : Nat) : List Nat :=
  (List.range' i n).filter (fun k => decide (RayCovers m bomb dir k))

/-- The steps `i..i+n-1` of a ray at which a breakable wall is destroyed. -/
def hitSteps (m : Grid) (bomb : Bomb) (dir : Dir) (i n : Nat) : List Nat :=
  (List.range' i n).filter (fun k =>
    decide (RayCovers m bomb dir k ∧ cellAt m (rayX bomb dir k) (rayY bomb dir k) = some 2))

/-- The fields that a detonation never touches. -/
def SameActors (g g1 : Game) : Prop :=
  g1.lives = g.lives ∧ g1.level = g.level ∧ g1.gameRunning = g.gameRunning ∧
    g1.currentBgIndex = g.currentBgIndex ∧ g1.player = g.player ∧ g1.bombs = g.bombs ∧
    g1.enemies = g.enemies

/-- The rays of two directions share no cell. -/
def RaysDisjoint (d1 d2 : Dir) : Prop :=
  ∀ j k : Nat, 1 ≤ j → 1 ≤ k → ¬ (d1.x * (j : Int) = d2.x * (k : Int) ∧
    d1.y * (j : Int) = d2.y * (k : Int))

/-- Every cell of the grid, as a position `(x, y)`. -/
def allCells : List (Int × Int) :=
  (List.range rows).flatMap (fun (y : Nat) =>
    (List.range cols).map (fun (x : Nat) => ((x : Int), (y : Int))))

/-- The cells of the grid at which the maps `m` and `m1` differ. -/
def changedCells (m m1 : Grid) : List (Int × Int) :=
  allCells.filter (fun c => decide (cellAt m1 c.1 c.2 ≠ cellAt m c.1 c.2))

/-! ## Notions used in the invariant proofs -/

/-- The map `m1` comes from `m` by turning breakable walls into empty cells. -/
def MapEvolves (m m1 : Grid) : Prop :=
  ∀ x y, cellAt m1 x y = cellAt m x y ∨ (cellAt m x y = some 2 ∧ cellAt m1 x y = some 0)

/-- The fields that neither bombs nor explosions touch. -/
def SameCore (g g1 : Game) : Prop :=
  g1.lives = g.lives ∧ g1.level = g.level ∧ g1.gameRunning = g.gameRunning ∧
    g1.currentBgIndex = g.currentBgIndex ∧ g1.player = g.player ∧ g1.enemies = g.enemies

/-- The cells that are solid by construction: the border of the grid and the interior
cells with even row and even column. -/
def SolidLattice (x y : Int) : Prop :=
  InBounds x y ∧
    (y = 0 ∨ y = (rows : Int) - 1 ∨ x = 0 ∨ x = (cols : Int) - 1 ∨ (y % 2 = 0 ∧ x % 2 = 0))

instance (x y : Int) : Decidable (SolidLattice x y) := by
  unfold SolidLattice
  infer_instance

/-- The solid walls of the map `m` are exactly the cells of `SolidLattice`. -/
def SolidExact (m : Grid) : Prop :=
  ∀ x y, cellAt m x y = some 1 ↔ SolidLattice x y

/-- The two tests of `checkCollisions()` that lead to `playerHit()`: an enemy, or else an
explosion, shares the player's cell. -/
def playerIsHit (g : Game) : Bool :=
  g.enemies.any (fun en => decide (en.x = g.player.x ∧ en.y = g.player.y)) ||
    g.explosions.any (fun ex => decide (ex.x = g.player.x ∧ ex.y = g.player.y))

/-- The invariant of the reachable states. -/
structure Inv (g : Game) : Prop where
  solid : SolidExact g.map
  cap : (g.bombs.length : Int) ≤ g.player.bombCount
  distinct : g.bombs.Pairwise (fun a b => ¬ (a.x = b.x ∧ a.y = b.y))
  player : cellAt g.map g.player.x g.player.y ≠ some 1
  enemies : ∀ e ∈ g.enemies, cellAt g.map e.x e.y ≠ some 1 ∧ cellAt g.map e.x e.y ≠ some 2

/-! ## Concrete streams and states used in the examples -/

/-- The roll `n / d` when `n < d`, and `0` otherwise. -/
def mkRoll (n d : Nat) : Roll :=
  if h : n < d then ⟨n, d, h⟩ else ⟨0, 1, Nat.zero_lt_one⟩

/-- The stream whose every roll is `1 / 2`. -/
def halfRng : Rng :=
  fun _ => mkRoll 1 2

/-- The state with every field zero or empty, used only as a default value. -/
def emptyGame : Game :=
  ⟨0, 0, 0, false, 0, ⟨0, 0, 0, 0⟩, [], [], [], [], []⟩

/-- The constructed state for the stream `halfRng`: no breakable wall and four enemies
at (10,7) that face left. -/
def initialState : Game :=
  match construct 1 halfRng with
  | some (g, _) => g
  | none => emptyGame

/-- A run of `update` ticks, one per key snapshot, each with the rolls `rng`. -/
def runTicks (fuel : Nat) (rng : Rng) : List Keys → Game → Option Game
  | [], g => some g
  | keys :: rest, g =>
    match update fuel keys rng g with
    | none => none
    | some (g1, _) => runTicks fuel rng rest g1

/-- The key snapshot with only `KeyD` (right) held. -/
def keysRight : Keys :=
  { noKeys with KeyD := true }

/-- The key snapshot with only `KeyS` (down) held. -/
def keysDown : Keys :=
  { noKeys with KeyS := true }

/-- Eight ticks to the right, six ticks down, then fifteen ticks with no key. -/
def walkKeys : List Keys :=
  List.replicate 8 keysRight ++ List.replicate 6 keysDown ++ List.replicate 15 noKeys

/-- The state after the 29 ticks of `walkKeys`: the player waits at (9,7), next to the
enemies at (10,7) whose move timers stand at 29. -/
def ambushState : Game :=
  match runTicks 1 halfRng walkKeys initialState with
  | some g => g
  | none => emptyGame

/-- The state of an `update` tick just before `checkCollisions()` runs: after
`handleInput`, `updateBombs`, `updateExplosions` and `updateEnemies`. -/
def beforeCollisions (keys : Keys) (rng : Rng) (g : Game) : Game :=
  (updateEnemies (updateBombs rng (handleInput keys g)).2
    (updateExplosions (updateBombs rng (handleInput keys g)).1)).1

/-- The constructed state with two enemies, an explosion and a powerup put on the
player's cell (1,1). -/
def crowdedState : Game :=
  { initialState with
    enemies := [⟨1, 1, 0, 0⟩, ⟨1, 1, 1, 0⟩, ⟨10, 7, 2, 0⟩],
    explosions := [⟨1, 1, 30⟩, ⟨10, 7, 30⟩],
    powerups := [⟨1, 1, PowerupType.bomb, PowerupColor.green⟩] }

/-- The invariant on the lives: between 0 and 3, and the game runs exactly while a life
is left. -/
def LivesInv (g : Game) : Prop :=
  0 ≤ g.lives ∧ g.lives ≤ 3 ∧ (g.gameRunning = true ↔ 0 < g.lives)

/-- The enemy `en` shares its cell with at least one explosion of `exs`. -/
def inExplosion (exs : List Explosion) (en : Enemy) : Bool :=
  exs.any (fun ex => decide (en.x = ex.x ∧ en.y = ex.y))

/-- The powerup `p` lies on the cell of the player `pl`. -/
def onPlayerCell (pl : Player) (p : Powerup) : Bool :=
  decide (p.x = pl.x ∧ p.y = pl.y)

/-- The powerup `p` has the type `t`. -/
def hasType (t : PowerupType) (p : Powerup) : Bool :=
  decide (p.type = t)

/-- One step of the background-colour cycle. -/
def nextBgIndex (b : Nat) : Nat :=
  (b + 1) % backgroundColorsLength

/-- The constructed state with four enemies, three of them inside explosions (two of
these adjacent in the collection), and four powerups, three of them under the player. -/
def pickupState : Game :=
  { initialState with
    enemies := [⟨10, 7, 2, 0⟩, ⟨12, 7, 2, 0⟩, ⟨10, 7, 1, 5⟩, ⟨11, 7, 0, 0⟩],
    explosions := [⟨10, 7, 30⟩, ⟨11, 7, 30⟩, ⟨10, 7, 12⟩],
    powerups := [⟨1, 1, PowerupType.bomb, PowerupColor.green⟩,
      ⟨3, 3, PowerupType.range, PowerupColor.blue⟩,
      ⟨1, 1, PowerupType.range, PowerupColor.green⟩,
      ⟨1, 1, PowerupType.bomb, PowerupColor.blue⟩] }

/-- The detonations of the bombs of a list, one `explodeBomb` call each, in order. -/
def detonateAll : List Bomb → Rng → Game → Game × Rng
  | [], rng, g => (g, rng)
  | b :: bs, rng, g =>
    let r := explodeBomb b rng g
    detonateAll bs r.2 r.1

/-- What one call of `updateBombs` is claimed to do to the bomb collection: keep the
bombs with a timer above 1, in order, each with its timer reduced by 1. -/
def stepBombs (bs : List Bomb) : List Bomb :=
  (bs.filter (fun b => decide (1 < b.timer))).map tickBomb

/-- The bombs that one call of `updateBombs` is claimed to detonate: those with a timer
of 1 or less, in the order of the loop (last first), after the decrement. -/
def expiringBombs (bs : List Bomb) : List Bomb :=
  ((bs.filter (fun b => decide (b.timer ≤ 1))).map tickBomb).reverse

/-- Successive calls of `updateBombs`, one per stream of rolls. -/
def updateBombsTimes : List Rng → Game → Game
  | [], g => g
  | rng :: rest, g => updateBombsTimes rest (updateBombs rng g).1

/-- The bomb `b` is on the cell `(x, y)`. -/
def bombAt (x y : Int) (b : Bomb) : Bool :=
  decide (b.x = x ∧ b.y = y)

/-- The stream whose third roll is 0 and whose other rolls are `1 / 2`: the third cell
that draws a roll, (3,1), becomes the only breakable wall. -/
def wallRng : Rng :=
  fun n => if n = 2 then mkRoll 0 1 else mkRoll 1 2

/-- The constructed state for the stream `wallRng`. -/
def wallState : Game :=
  match construct 1 wallRng with
  | some (g, _) => g
  | none => emptyGame

/-- A stream for one powerup spawn: the first roll (0) spawns a powerup, the second is
below 0.5 exactly when `t` holds, and every later one exactly when `c` holds. -/
def spawnRng (t c : Bool) : Rng :=
  fun n =>
    if n = 0 then mkRoll 0 1
    else if n = 1 then (if t then mkRoll 0 1 else mkRoll 1 2)
    else (if c then mkRoll 0 1 else mkRoll 1 2)

/-- The number of rolls that the map loops draw for the cell in `row` and `col`: none
for a border or pillar cell, one for every other cell. -/
def cellCost (row col : Nat) : Nat :=
  if row = 0 ∨ row = rows - 1 ∨ col = 0 ∨ col = cols - 1 ∨ (row % 2 = 0 ∧ col % 2 = 0) then 0
  else 1

/-- The number of rolls drawn for `n` cells of `row`, from column `col` on. -/
def rowCost (row : Nat) : Nat → Nat → Nat
  | 0, _ => 0
  | n + 1, col => cellCost row col + rowCost row n (col + 1)

/-- The number of rolls drawn for `n` whole rows, from `row` on. -/
def rowsCost : Nat → Nat → Nat
  | 0, _ => 0
  | n + 1, row => rowCost row cols 0 + rowsCost n (row + 1)

/-- The stream whose first 180 rolls (those of the map loops) are 0 and whose later
rolls (the position draws) are `1 / 2`. -/
def lowThenHalf : Rng :=
  fun n => if n < 180 then mkRoll 0 1 else mkRoll 1 2

/-- The key snapshot with only `KeyW` (up) held. -/
def keysUp : Keys :=
  { noKeys with KeyW := true }

/-- The state after one `update` tick per key snapshot of `ks`, each with the rolls
`rng`, from the state `g`. -/
def afterTicks (rng : Rng) (ks : List Keys) (g : Game) : Game :=
  match runTicks 1 rng ks g with
  | some g1 => g1
  | none => emptyGame

/-- Three trips of the player from (1,1) to the enemies of `initialState`: a step onto
their cell (10,7) at tick 15, a wait at (9,7) until they arrive at tick 30, and a step
onto their new cell (9,7) at tick 44. -/
def hitWalk : List Keys :=
  List.replicate 8 keysRight ++ List.replicate 6 keysDown ++ [keysRight] ++
    (List.replicate 8 keysRight ++ List.replicate 6 keysDown ++ [noKeys]) ++
    (List.replicate 8 keysRight ++ List.replicate 6 keysDown)

/-- The state after the 44 ticks of `hitWalk`: the third hit has taken the last life. -/
def gameOverState : Game :=
  afterTicks halfRng hitWalk initialState

/-- Four ticks to the right and six ticks down: from (1,1) to (5,7). -/
def bombWalk : List Keys :=
  List.replicate 4 keysRight ++ List.replicate 6 keysDown

/-- Three ticks up, then 116 ticks with no key. -/
def retreatKeys : List Keys :=
  List.replicate 3 keysUp ++ List.replicate 116 noKeys

/-- The state 129 ticks into a run from `initialState`: the bomb dropped at (5,7) after
tick 10 has timer 1, the player waits at (5,4) and the four enemies stand at (6,7). -/
def preClearState : Game :=
  afterTicks halfRng retreatKeys (dropBomb (afterTicks halfRng bombWalk initialState))

/-- The state that `update` hands to `nextLevel` in tick 130 of that run: the explosion
has removed all four enemies. -/
def clearedState : Game :=
  checkCollisions (beforeCollisions noKeys halfRng preClearState)

/-- Two ticks down and one to the right, then 116 ticks with no key. -/
def coverKeys : List Keys :=
  [keysDown, keysDown, keysRight] ++ List.replicate 116 noKeys

/-- Twenty-six ticks with no key, then one tick to the right and two ticks up. -/
def fetchKeys : List Keys :=
  List.replicate 26 noKeys ++ [keysRight, keysUp, keysUp]

/-- The state 149 ticks into a run from `wallState`: the bomb dropped at (1,1) has
destroyed the wall at (3,1) in tick 120, a 'bomb' powerup has appeared there, and the
player has walked from (2,3) to (3,1) and picked it up. -/
def upgradedState : Game :=
  afterTicks halfRng fetchKeys
    (afterTicks (spawnRng true false) [noKeys]
      (afterTicks halfRng coverKeys (dropBomb wallState)))

/-- The state after a `dropBomb` at (3,1), one tick down and a `dropBomb` at (3,2). -/
def twoBombState : Game :=
  dropBomb (afterTicks halfRng [keysDown] (dropBomb upgradedState))

/-- The rolls that are left in an `update` tick when the win check runs: what the
tick's stream is after `updateBombs` and `updateEnemies` have drawn from it. -/
def rollsAtWinCheck (keys : Keys) (rng : Rng) (g : Game) : Rng :=
  (updateEnemies (updateBombs rng (handleInput keys g)).2
    (updateExplosions (updateBombs rng (handleInput keys g)).1)).2

/-! ## Movement (C6) -/

/-- C6: `canMoveTo(x, y)` is false outside the grid, false on a solid or breakable
wall, false on a cell that holds a bomb, and true in every other case. -/
theorem canMoveTo_cases (g : Game) (x y : Int) :
    ((x < 0 ∨ x ≥ (cols : Int) ∨ y < 0 ∨ y ≥ (rows : Int)) → canMoveTo g x y = false) ∧
    ((cellAt g.map x y = some 1 ∨ cellAt g.map x y = some 2) → canMoveTo g x y = false) ∧
    ((∃ b ∈ g.bombs, b.x = x ∧ b.y = y) → canMoveTo g x y = false) ∧
    ((¬ (x < 0 ∨ x ≥ (cols : Int) ∨ y < 0 ∨ y ≥ (rows : Int)) ∧
        ¬ (cellAt g.map x y = some 1 ∨ cellAt g.map x y = some 2) ∧
        ¬ (∃ b ∈ g.bombs, b.x = x ∧ b.y = y)) → canMoveTo g x y = true) := by
  refine ⟨?_, ?_, ?_, ?_⟩
  · intro h
    simp [canMoveTo, h]
  · intro h
    unfold canMoveTo
    split
    · rfl
    · simp [h]
  · intro h
    have hb : g.bombs.any (fun b => decide (b.x = x ∧ b.y = y)) = true := by
      simpa [List.any_eq_true] using h
    unfold canMoveTo
    split
    · rfl
    · split
      · rfl
      · simp [hb]
  · rintro ⟨h1, h2, h3⟩
    have hb : ¬ g.bombs.any (fun b => decide (b.x = x ∧ b.y = y)) = true := by
      simpa [List.any_eq_true] using h3
    unfold canMoveTo
    rw [if_neg h1, if_neg h2, if_neg hb]

/-! ## Life loss (C9) -/

/-- C9: `playerHit` takes exactly one life; with a life left it only moves the player
to (1,1) (every other field, `gameRunning` included, keeps its value); with none left
it clears `gameRunning`.  From three lives the first hit leaves two lives at (1,1) and
the third hit leaves none with the game stopped. -/
theorem playerHit_spec (g : Game) :
    (playerHit g).lives = g.lives - 1 ∧
    (0 < g.lives - 1 →
      playerHit g =
        { g with lives := g.lives - 1, player := { g.player with x := 1, y := 1 } } ∧
      (playerHit g).player.x = 1 ∧ (playerHit g).player.y = 1 ∧
      (playerHit g).gameRunning = g.gameRunning ∧
      (playerHit g).score = g.score ∧
      (playerHit g).player.bombCount = g.player.bombCount ∧
      (playerHit g).player.bombRange = g.player.bombRange ∧
      (playerHit g).bombs = g.bombs ∧ (playerHit g).explosions = g.explosions ∧
      (playerHit g).enemies = g.enemies ∧ (playerHit g).powerups = g.powerups ∧
      (playerHit g).map = g.map) ∧
    (g.lives - 1 ≤ 0 → (playerHit g).gameRunning = false) ∧
    (g.lives = 3 → g.gameRunning = true →
      (playerHit g).lives = 2 ∧ (playerHit g).player.x = 1 ∧ (playerHit g).player.y = 1 ∧
      (playerHit g).gameRunning = true ∧
      (playerHit (playerHit g)).lives = 1 ∧ (playerHit (playerHit g)).gameRunning = true ∧
      (playerHit (playerHit (playerHit g))).lives = 0 ∧
      (playerHit (playerHit (playerHit g))).gameRunning = false) := by
  refine ⟨?_, ?_, ?_, ?_⟩
  · unfold playerHit gameOver
    dsimp only
    split <;> rfl
  · intro h
    have h1 : ¬ (g.lives - 1 ≤ 0) := by omega
    simp [playerHit, h1]
  · intro h
    simp [playerHit, h, gameOver]
  · intro h3 hr
    simp [playerHit, gameOver, h3, hr]

/-! ## Reading and writing cells -/

theorem cellAt_setCell (m : Grid) (x y : Int) (w : Nat) (x1 y1 : Int) :
    cellAt (setCell m x y w) x1 y1 =
      if x1 = x ∧ y1 = y ∧ (cellAt m x y).isSome = true then some w else cellAt m x1 y1 := by
  unfold setCell
  by_cases hneg : x < 0 ∨ y < 0
  · have h0 : cellAt m x y = none := by simp [cellAt, hneg]
    simp [hneg, h0]
  · rw [if_neg hneg]
    push_neg at hneg
    cases hrow : m[y.toNat]? with
    | none =>
      have h0 : cellAt m x y = none := by simp [cellAt, hrow]
      simp [h0]
    | some row =>
      have hy : y.toNat < m.length := by
        rcases List.getElem?_eq_some.1 hrow with ⟨h, _⟩
        exact h
      have hc : cellAt m x y = row[x.toNat]? := by
        unfold cellAt
        rw [if_neg (by omega), hrow]
      by_cases h1 : x1 < 0 ∨ y1 < 0
      · have hne : ¬ (x1 = x ∧ y1 = y ∧ (cellAt m x y).isSome = true) := by
          rintro ⟨rfl, rfl, _⟩
          omega
        rw [if_neg hne]
        simp [cellAt, h1]
      · push_neg at h1
        by_cases hyy : y1 = y
        · subst hyy
          by_cases hxx : x1 = x
          · subst hxx
            simp only [cellAt, if_neg (show ¬ (x1 < 0 ∨ y1 < 0) by omega),
              List.getElem?_set, if_pos hy, if_true, true_and, hrow]
            by_cases hx : x1.toNat < row.length
            · simp [hx, List.getElem?_eq_getElem hx]
            · simp [hx, List.getElem?_eq_none (Nat.le_of_not_lt hx)]
          · have hxn : x.toNat ≠ x1.toNat := by omega
            simp only [cellAt, if_neg (show ¬ (x1 < 0 ∨ y1 < 0) by omega),
              List.getElem?_set, if_pos hy, if_true, hrow, if_neg hxn]
            simp [hxx]
        · have hyn : y.toNat ≠ y1.toNat := by omega
          simp only [cellAt, if_neg (show ¬ (x1 < 0 ∨ y1 < 0) by omega),
            List.getElem?_set, if_neg hyn]
          simp [hyy]

theorem cellAt_setCell_self (m : Grid) (x y : Int) (w v : Nat) (h : cellAt m x y = some v) :
    cellAt (setCell m x y w) x y = some w := by
  rw [cellAt_setCell]
  simp [h]

theorem cellAt_setCell_of_ne (m : Grid) (x y : Int) (w : Nat) (x1 y1 : Int)
    (h : ¬ (x1 = x ∧ y1 = y)) : cellAt (setCell m x y w) x1 y1 = cellAt m x1 y1 := by
  rw [cellAt_setCell]
  have : ¬ (x1 = x ∧ y1 = y ∧ (cellAt m x y).isSome = true) := fun h1 => h ⟨h1.1, h1.2.1⟩
  rw [if_neg this]

/-! ## One ray of a detonation -/

theorem rayCovers_of_open {m : Grid} {bomb : Bomb} {dir : Dir} {i : Nat} (hi : 1 ≤ i)
    (ho : RayOpen m bomb dir (i - 1))
    (hb : InBounds (rayX bomb dir i) (rayY bomb dir i))
    (hs : cellAt m (rayX bomb dir i) (rayY bomb dir i) ≠ some 1) :
    RayCovers m bomb dir i := by
  constructor
  · intro j hj
    rw [List.mem_range'_1] at hj
    by_cases hji : j = i
    · subst hji
      exact ⟨hb, hs⟩
    · have := ho j hj.1 (by omega)
      exact ⟨this.1, this.2.1⟩
  · intro j hj
    rw [List.mem_range'_1] at hj
    exact (ho j hj.1 (by omega)).2.2

theorem not_rayCovers_of_blocked {m : Grid} {bomb : Bomb} {dir : Dir} {i k : Nat}
    (hi : 1 ≤ i) (hik : i ≤ k)
    (h : ¬ (InBounds (rayX bomb dir i) (rayY bomb dir i) ∧
      cellAt m (rayX bomb dir i) (rayY bomb dir i) ≠ some 1)) :
    ¬ RayCovers m bomb dir k := by
  intro hc
  exact h (hc.1 i (by rw [List.mem_range'_1]; omega))

theorem not_rayCovers_of_breakable {m : Grid} {bomb : Bomb} {dir : Dir} {i k : Nat}
    (hi : 1 ≤ i) (hik : i < k)
    (h : cellAt m (rayX bomb dir i) (rayY bomb dir i) = some 2) :
    ¬ RayCovers m bomb dir k := by
  intro hc
  exact hc.2 i (by rw [List.mem_range'_1]; omega) h

theorem sameActors_refl (g : Game) : SameActors g g :=
  ⟨rfl, rfl, rfl, rfl, rfl, rfl, rfl⟩

theorem sameActors_trans {a b c : Game} (h1 : SameActors a b) (h2 : SameActors b c) :
    SameActors a c := by
  obtain ⟨a1, a2, a3, a4, a5, a6, a7⟩ := h1
  obtain ⟨b1, b2, b3, b4, b5, b6, b7⟩ := h2
  exact ⟨b1.trans a1, b2.trans a2, b3.trans a3, b4.trans a4, b5.trans a5, b6.trans a6,
    b7.trans a7⟩

theorem explodeRay_spec (m0 : Grid) (bomb : Bomb) (dir : Dir) :
    ∀ (n i : Nat) (rng : Rng) (g : Game), 1 ≤ i →
      (∀ j, i ≤ j → cellAt g.map (rayX bomb dir j) (rayY bomb dir j) =
        cellAt m0 (rayX bomb dir j) (rayY bomb dir j)) →
      RayOpen m0 bomb dir (i - 1) →
      (explodeRay bomb dir n i rng g).1.explosions =
          g.explosions ++ (coveredSteps m0 bomb dir i n).map
            (fun k => ⟨rayX bomb dir k, rayY bomb dir k, 30⟩) ∧
        (explodeRay bomb dir n i rng g).1.score =
          g.score + 10 * ((hitSteps m0 bomb dir i n).length : Int) ∧
        (∀ x y, cellAt (explodeRay bomb dir n i rng g).1.map x y =
          if (x, y) ∈ (hitSteps m0 bomb dir i n).map
              (fun k => (rayX bomb dir k, rayY bomb dir k))
          then some 0 else cellAt g.map x y) ∧
        SameActors g (explodeRay bomb dir n i rng g).1 := by
  intro n
  induction n with
  | zero =>
    intro i rng g _ _ _
    simp [explodeRay, coveredSteps, hitSteps, sameActors_refl]
  | succ n ih =>
    intro i rng g hi hag ho
    have hcell := hag i (Nat.le_refl i)
    unfold explodeRay
    simp only []
    by_cases hb : bomb.x + dir.x * (i : Int) < 0 ∨ bomb.x + dir.x * (i : Int) ≥ (cols : Int) ∨
        bomb.y + dir.y * (i : Int) < 0 ∨ bomb.y + dir.y * (i : Int) ≥ (rows : Int)
    · -- the ray leaves the grid at step i
      rw [if_pos hb]
      have hblk : ¬ (InBounds (rayX bomb dir i) (rayY bomb dir i) ∧
          cellAt m0 (rayX bomb dir i) (rayY bomb dir i) ≠ some 1) := by
        rintro ⟨hin, _⟩
        unfold InBounds rayX rayY at hin
        omega
      have hnone : ∀ k ∈ List.range' i (n + 1), ¬ RayCovers m0 bomb dir k := by
        intro k hk
        rw [List.mem_range'_1] at hk
        exact not_rayCovers_of_blocked hi hk.1 hblk
      have hc : coveredSteps m0 bomb dir i (n + 1) = [] := by
        unfold coveredSteps
        rw [List.filter_eq_nil_iff]
        intro k hk
        simpa using hnone k hk
      have hh : hitSteps m0 bomb dir i (n + 1) = [] := by
        unfold hitSteps
        rw [List.filter_eq_nil_iff]
        intro k hk
        have := hnone k hk
        simp [this]
      simp [hc, hh, sameActors_refl]
    · rw [if_neg hb]
      have hin : InBounds (rayX bomb dir i) (rayY bomb dir i) := by
        unfold InBounds rayX rayY
        omega
      by_cases hs : cellAt g.map (bomb.x + dir.x * (i : Int)) (bomb.y + dir.y * (i : Int)) = some 1
      · -- a solid wall at step i
        rw [if_pos hs]
        have hblk : ¬ (InBounds (rayX bomb dir i) (rayY bomb dir i) ∧
            cellAt m0 (rayX bomb dir i) (rayY bomb dir i) ≠ some 1) := by
          rintro ⟨_, hne⟩
          apply hne
          rw [← hcell]
          exact hs
        have hnone : ∀ k ∈ List.range' i (n + 1), ¬ RayCovers m0 bomb dir k := by
          intro k hk
          rw [List.mem_range'_1] at hk
          exact not_rayCovers_of_blocked hi hk.1 hblk
        have hc : coveredSteps m0 bomb dir i (n + 1) = [] := by
          unfold coveredSteps
          rw [List.filter_eq_nil_iff]
          intro k hk
          simpa using hnone k hk
        have hh : hitSteps m0 bomb dir i (n + 1) = [] := by
          unfold hitSteps
          rw [List.filter_eq_nil_iff]
          intro k hk
          have := hnone k hk
          simp [this]
        simp [hc, hh, sameActors_refl]
      · rw [if_neg hs]
        have hs0 : cellAt m0 (rayX bomb dir i) (rayY bomb dir i) ≠ some 1 := by
          rw [← hcell]
          exact hs
        have hcov : RayCovers m0 bomb dir i := rayCovers_of_open hi ho hin hs0
        by_cases h2 : cellAt g.map (bomb.x + dir.x * (i : Int)) (bomb.y + dir.y * (i : Int)) = some 2
        · -- a breakable wall at step i: it is destroyed and the ray stops
          rw [if_pos h2]
          have h20 : cellAt m0 (rayX bomb dir i) (rayY bomb dir i) = some 2 := by
            rw [← hcell]
            exact h2
          have hnone : ∀ k ∈ List.range' (i + 1) n, ¬ RayCovers m0 bomb dir k := by
            intro k hk
            rw [List.mem_range'_1] at hk
            exact not_rayCovers_of_breakable hi (by omega) h20
          have hc : coveredSteps m0 bomb dir i (n + 1) = [i] := by
            unfold coveredSteps
            rw [List.range'_succ, List.filter_cons_of_pos (by simpa using hcov)]
            congr 1
            rw [List.filter_eq_nil_iff]
            intro k hk
            simpa using hnone k hk
          have hh : hitSteps m0 bomb dir i (n + 1) = [i] := by
            unfold hitSteps
            rw [List.range'_succ, List.filter_cons_of_pos (by simp [hcov, h20])]
            congr 1
            rw [List.filter_eq_nil_iff]
            intro k hk
            have := hnone k hk
            simp [this]
          have hmap : ∀ x y, cellAt (setCell g.map (bomb.x + dir.x * (i : Int))
              (bomb.y + dir.y * (i : Int)) 0) x y =
              if (x, y) ∈ [(rayX bomb dir i, rayY bomb dir i)] then some 0
              else cellAt g.map x y := by
            intro x y
            rw [cellAt_setCell]
            simp [h2, rayX, rayY]
          split
          · refine ⟨?_, ?_, ?_, ?_⟩
            · simp [hc, rayX, rayY]
            · simp [hh]
            · intro x y
              rw [hh]
              exact hmap x y
            · exact ⟨rfl, rfl, rfl, rfl, rfl, rfl, rfl⟩
          · refine ⟨?_, ?_, ?_, ?_⟩
            · simp [hc, rayX, rayY]
            · simp [hh]
            · intro x y
              rw [hh]
              exact hmap x y
            · exact ⟨rfl, rfl, rfl, rfl, rfl, rfl, rfl⟩
        · -- an open cell at step i: the ray goes on
          rw [if_neg h2]
          have h20 : cellAt m0 (rayX bomb dir i) (rayY bomb dir i) ≠ some 2 := by
            rw [← hcell]
            exact h2
          have ho1 : RayOpen m0 bomb dir (i + 1 - 1) := by
            intro j hj1 hj2
            by_cases hji : j = i
            · subst hji
              exact ⟨hin, hs0, h20⟩
            · exact ho j hj1 (by omega)
          have hrec := ih (i + 1) rng
            { g with explosions := g.explosions ++
                [⟨bomb.x + dir.x * (i : Int), bomb.y + dir.y * (i : Int), 30⟩] }
            (by omega) (fun j hj => hag j (by omega)) ho1
          obtain ⟨r1, r2, r3, r4⟩ := hrec
          have hc : coveredSteps m0 bomb dir i (n + 1) = i :: coveredSteps m0 bomb dir (i + 1) n := by
            unfold coveredSteps
            rw [List.range'_succ, List.filter_cons_of_pos (by simpa using hcov)]
          have hh : hitSteps m0 bomb dir i (n + 1) = hitSteps m0 bomb dir (i + 1) n := by
            unfold hitSteps
            rw [List.range'_succ, List.filter_cons_of_neg (by simp [h20])]
          refine ⟨?_, ?_, ?_, ?_⟩
          · rw [r1, hc]
            simp [rayX, rayY]
          · rw [r2, hh]
          · intro x y
            rw [r3, hh]
          · exact r4

/-! ## The four rays of a detonation -/

theorem directions_pairwise : directions.Pairwise RaysDisjoint := by
  unfold directions
  refine List.Pairwise.cons ?_ (List.Pairwise.cons ?_ (List.Pairwise.cons ?_
    (List.Pairwise.cons ?_ List.Pairwise.nil)))
  all_goals
    intro a ha
    simp only [List.mem_cons, List.mem_singleton, List.not_mem_nil, or_false] at ha
  · rcases ha with rfl | rfl | rfl <;> (intro j k hj hk; dsimp only; omega)
  · rcases ha with rfl | rfl <;> (intro j k hj hk; dsimp only; omega)
  · subst ha
    intro j k hj hk
    dsimp only
    omega

theorem mem_specHits {m : Grid} {bomb : Bomb} {dir : Dir} {x y : Int} :
    (x, y) ∈ specHits m bomb dir ↔
      ∃ i, 1 ≤ i ∧ i ≤ bomb.range.toNat ∧ RayCovers m bomb dir i ∧
        cellAt m (rayX bomb dir i) (rayY bomb dir i) = some 2 ∧
        x = rayX bomb dir i ∧ y = rayY bomb dir i := by
  unfold specHits
  simp only [List.mem_map, List.mem_filter, List.mem_range'_1, decide_eq_true_eq,
    Prod.mk.injEq]
  constructor
  · rintro ⟨i, ⟨⟨h1, h2⟩, h3, h4⟩, h5, h6⟩
    exact ⟨i, h1, by omega, h3, h4, h5.symm, h6.symm⟩
  · rintro ⟨i, h1, h2, h3, h4, h5, h6⟩
    exact ⟨i, ⟨⟨h1, by omega⟩, h3, h4⟩, h5.symm, h6.symm⟩

theorem length_le_one_of_all_eq {α : Type} (l : List α) (hn : l.Nodup)
    (h : ∀ a ∈ l, ∀ b ∈ l, a = b) : l.length ≤ 1 := by
  match l, hn, h with
  | [], _, _ => simp
  | [_], _, _ => simp
  | a :: b :: t, hn, h =>
    exfalso
    have hab : a = b := h a (by simp) b (by simp)
    rw [List.nodup_cons] at hn
    exact hn.1 (by simp [hab])

theorem specHits_length (m : Grid) (bomb : Bomb) (dir : Dir) :
    (specHits m bomb dir).length ≤ 1 := by
  unfold specHits
  rw [List.length_map]
  apply length_le_one_of_all_eq
  · exact (List.nodup_range' 1 bomb.range.toNat).filter _
  · intro a ha b hb
    simp only [List.mem_filter, List.mem_range'_1, decide_eq_true_eq] at ha hb
    by_contra hab
    rcases Nat.lt_or_gt_of_ne hab with h | h
    · exact not_rayCovers_of_breakable ha.1.1 h ha.2.2 hb.2.1
    · exact not_rayCovers_of_breakable hb.1.1 h hb.2.2 ha.2.1

theorem specHits_nodup (m : Grid) (bomb : Bomb) (dir : Dir) : (specHits m bomb dir).Nodup := by
  have h := specHits_length m bomb dir
  match hl : specHits m bomb dir with
  | [] => simp
  | [_] => simp
  | _ :: _ :: _ => rw [hl] at h; simp at h

theorem explodeRays_spec (m0 : Grid) (bomb : Bomb) :
    ∀ (dirs : List Dir) (rng : Rng) (g : Game), dirs.Pairwise RaysDisjoint →
      (∀ d ∈ dirs, ∀ j : Nat, 1 ≤ j → cellAt g.map (rayX bomb d j) (rayY bomb d j) =
        cellAt m0 (rayX bomb d j) (rayY bomb d j)) →
      (explodeRays bomb dirs rng g).1.explosions =
          g.explosions ++ dirs.flatMap (specRay m0 bomb) ∧
        (explodeRays bomb dirs rng g).1.score =
          g.score + 10 * ((dirs.flatMap (specHits m0 bomb)).length : Int) ∧
        (∀ x y, cellAt (explodeRays bomb dirs rng g).1.map x y =
          if (x, y) ∈ dirs.flatMap (specHits m0 bomb) then some 0 else cellAt g.map x y) ∧
        SameActors g (explodeRays bomb dirs rng g).1 := by
  intro dirs
  induction dirs with
  | nil =>
    intro rng g _ _
    simp [explodeRays, sameActors_refl]
  | cons d dirs ih =>
    intro rng g hp hag
    rw [List.pairwise_cons] at hp
    obtain ⟨a1, a2, a3, a4⟩ := explodeRay_spec m0 bomb d bomb.range.toNat 1 rng g
      (Nat.le_refl 1) (fun j hj => hag d (by simp) j hj)
      (fun j h1 h2 => absurd h2 (by omega))
    have hag1 : ∀ d1 ∈ dirs, ∀ j : Nat, 1 ≤ j →
        cellAt (explodeRay bomb d bomb.range.toNat 1 rng g).1.map (rayX bomb d1 j)
          (rayY bomb d1 j) = cellAt m0 (rayX bomb d1 j) (rayY bomb d1 j) := by
      intro d1 hd1 j hj
      rw [a3]
      have hnot : (rayX bomb d1 j, rayY bomb d1 j) ∉
          (hitSteps m0 bomb d 1 bomb.range.toNat).map
            (fun k => (rayX bomb d k, rayY bomb d k)) := by
        intro hmem
        have hmem1 : (rayX bomb d1 j, rayY bomb d1 j) ∈ specHits m0 bomb d := hmem
        rw [mem_specHits] at hmem1
        obtain ⟨i, hi1, _, _, _, hx, hy⟩ := hmem1
        apply hp.1 d1 hd1 i j hi1 hj
        unfold rayX at hx
        unfold rayY at hy
        constructor <;> omega
      rw [if_neg hnot]
      exact hag d1 (by simp [hd1]) j hj
    obtain ⟨b1, b2, b3, b4⟩ := ih (explodeRay bomb d bomb.range.toNat 1 rng g).2
      (explodeRay bomb d bomb.range.toNat 1 rng g).1 hp.2 hag1
    have hs : specRay m0 bomb d = (coveredSteps m0 bomb d 1 bomb.range.toNat).map
        (fun k => ⟨rayX bomb d k, rayY bomb d k, 30⟩) := rfl
    have hh : specHits m0 bomb d = (hitSteps m0 bomb d 1 bomb.range.toNat).map
        (fun k => (rayX bomb d k, rayY bomb d k)) := rfl
    refine ⟨?_, ?_, ?_, ?_⟩
    · show (explodeRays bomb dirs _ _).1.explosions = _
      rw [b1, a1, List.flatMap_cons, hs, List.append_assoc]
    · show (explodeRays bomb dirs _ _).1.score = _
      rw [b2, a2, List.flatMap_cons, List.length_append, hh, List.length_map]
      push_cast
      ring
    · intro x y
      show cellAt (explodeRays bomb dirs _ _).1.map x y = _
      rw [b3, a3]
      by_cases h1 : (x, y) ∈ dirs.flatMap (specHits m0 bomb)
      · simp [h1]
      · by_cases h2 : (x, y) ∈ specHits m0 bomb d
        · have h3 := h2
          rw [hh] at h3
          simp [h1, h2, h3]
        · have h3 := h2
          rw [hh] at h3
          simp [h1, h2, h3]
    · exact sameActors_trans a4 b4

theorem explodeBomb_spec (bomb : Bomb) (rng : Rng) (g : Game) :
    (explodeBomb bomb rng g).1.explosions =
        g.explosions ++ ⟨bomb.x, bomb.y, 30⟩ :: directions.flatMap (specRay g.map bomb) ∧
      (explodeBomb bomb rng g).1.score =
        g.score + 10 * ((directions.flatMap (specHits g.map bomb)).length : Int) ∧
      (∀ x y, cellAt (explodeBomb bomb rng g).1.map x y =
        if (x, y) ∈ directions.flatMap (specHits g.map bomb) then some 0
        else cellAt g.map x y) ∧
      SameActors g (explodeBomb bomb rng g).1 := by
  obtain ⟨a1, a2, a3, a4⟩ := explodeRays_spec g.map bomb directions rng
    { g with explosions := g.explosions ++ [⟨bomb.x, bomb.y, 30⟩] } directions_pairwise
    (fun _ _ _ _ => rfl)
  refine ⟨?_, ?_, ?_, ?_⟩
  · unfold explodeBomb
    rw [a1]
    simp
  · unfold explodeBomb
    rw [a2]
  · intro x y
    unfold explodeBomb
    rw [a3]
  · unfold explodeBomb
    exact ⟨a4.1, a4.2.1, a4.2.2.1, a4.2.2.2.1, a4.2.2.2.2.1, a4.2.2.2.2.2.1, a4.2.2.2.2.2.2⟩

/-! ## The detonation (C1, C8) -/

/-- C1: the explosions that `explodeBomb` appends are exactly one at the bomb's cell
and then, ray by ray (up, down, left, right), one at every step `i` in `1..R` for which
all cells at steps `1..i` are in bounds and not solid and no cell at steps `1..i-1` is
breakable (`RayCovers`, read on the map before the detonation); each has timer 30. -/
theorem explodeBomb_explosions (bomb : Bomb) (rng : Rng) (g : Game) :
    (explodeBomb bomb rng g).1.explosions =
        g.explosions ++ ⟨bomb.x, bomb.y, 30⟩ :: directions.flatMap (specRay g.map bomb) ∧
      (∀ d, specRay g.map bomb d =
        ((List.range' 1 bomb.range.toNat).filter
          (fun i => decide (RayCovers g.map bomb d i))).map
          (fun i => ⟨bomb.x + d.x * (i : Int), bomb.y + d.y * (i : Int), 30⟩)) ∧
      ∀ e ∈ (⟨bomb.x, bomb.y, 30⟩ : Explosion) :: directions.flatMap (specRay g.map bomb),
        e.timer = 30 := by
  refine ⟨(explodeBomb_spec bomb rng g).1, fun d => rfl, ?_⟩
  intro e he
  rw [List.mem_cons] at he
  rcases he with rfl | he
  · rfl
  · rw [List.mem_flatMap] at he
    obtain ⟨d, _, hd⟩ := he
    unfold specRay at hd
    rw [List.mem_map] at hd
    obtain ⟨i, _, rfl⟩ := hd
    rfl

theorem mem_allCells {x y : Int} : (x, y) ∈ allCells ↔ InBounds x y := by
  unfold allCells InBounds
  simp only [List.mem_flatMap, List.mem_map, List.mem_range, Prod.mk.injEq]
  constructor
  · rintro ⟨b, hb, a, ha, rfl, rfl⟩
    omega
  · rintro ⟨h1, h2, h3, h4⟩
    exact ⟨y.toNat, by omega, x.toNat, by omega, by omega, by omega⟩

theorem allCells_nodup : allCells.Nodup := by
  unfold allCells
  rw [List.nodup_flatMap]
  constructor
  · intro y _
    apply List.Nodup.map _ (List.nodup_range cols)
    intro a b hab
    simp only [Prod.mk.injEq, Nat.cast_inj, and_true] at hab
    exact hab
  · apply List.Pairwise.imp _ (List.nodup_range rows)
    intro a b hab
    simp only [Function.onFun]
    intro c hc1 hc2
    rw [List.mem_map] at hc1 hc2
    obtain ⟨_, _, rfl⟩ := hc1
    obtain ⟨_, _, h⟩ := hc2
    simp only [Prod.mk.injEq, Nat.cast_inj] at h
    exact hab h.2.symm

theorem destroyed_nodup (m : Grid) (bomb : Bomb) :
    (directions.flatMap (specHits m bomb)).Nodup := by
  rw [List.nodup_flatMap]
  constructor
  · intro d _
    exact specHits_nodup m bomb d
  · apply List.Pairwise.imp _ directions_pairwise
    intro d1 d2 hd
    simp only [Function.onFun]
    intro c hc1 hc2
    obtain ⟨x, y⟩ := c
    rw [mem_specHits] at hc1 hc2
    obtain ⟨i, hi, _, _, _, hx1, hy1⟩ := hc1
    obtain ⟨k, hk, _, _, _, hx2, hy2⟩ := hc2
    apply hd i k hi hk
    unfold rayX at hx1 hx2
    unfold rayY at hy1 hy2
    constructor <;> omega

theorem destroyed_length (m : Grid) (bomb : Bomb) :
    (directions.flatMap (specHits m bomb)).length ≤ 4 := by
  have h1 := specHits_length m bomb ⟨0, -1⟩
  have h2 := specHits_length m bomb ⟨0, 1⟩
  have h3 := specHits_length m bomb ⟨-1, 0⟩
  have h4 := specHits_length m bomb ⟨1, 0⟩
  simp only [directions, List.flatMap_cons, List.flatMap_nil, List.length_append,
    List.length_nil]
  omega

theorem mem_destroyed {m : Grid} {bomb : Bomb} {x y : Int}
    (h : (x, y) ∈ directions.flatMap (specHits m bomb)) :
    cellAt m x y = some 2 ∧ InBounds x y := by
  rw [List.mem_flatMap] at h
  obtain ⟨d, _, hd⟩ := h
  rw [mem_specHits] at hd
  obtain ⟨i, hi, hi2, hc, h2, rfl, rfl⟩ := hd
  exact ⟨h2, (hc.1 i (by rw [List.mem_range'_1]; omega)).1⟩

/-- C8: `explodeBomb` changes the map exactly at the cells of `specHits`: per ray the
first breakable wall, when it lies within range and no solid wall or grid edge comes
before it.  Each of these cells was breakable and becomes empty, there are at most
four, every other cell keeps its value, and the score grows by ten times the number
of changed cells. -/
theorem explodeBomb_map_score (bomb : Bomb) (rng : Rng) (g : Game) :
    (∀ x y, (x, y) ∈ directions.flatMap (specHits g.map bomb) →
        cellAt g.map x y = some 2 ∧ cellAt (explodeBomb bomb rng g).1.map x y = some 0) ∧
      (∀ x y, (x, y) ∉ directions.flatMap (specHits g.map bomb) →
        cellAt (explodeBomb bomb rng g).1.map x y = cellAt g.map x y) ∧
      (∀ d x y, (x, y) ∈ specHits g.map bomb d ↔
        ∃ i, 1 ≤ i ∧ i ≤ bomb.range.toNat ∧ RayCovers g.map bomb d i ∧
          cellAt g.map (rayX bomb d i) (rayY bomb d i) = some 2 ∧
          x = rayX bomb d i ∧ y = rayY bomb d i) ∧
      (changedCells g.map (explodeBomb bomb rng g).1.map).Perm
        (directions.flatMap (specHits g.map bomb)) ∧
      (changedCells g.map (explodeBomb bomb rng g).1.map).length ≤ 4 ∧
      (explodeBomb bomb rng g).1.score =
        g.score + 10 * ((changedCells g.map (explodeBomb bomb rng g).1.map).length : Int) := by
  obtain ⟨_, a2, a3, _⟩ := explodeBomb_spec bomb rng g
  have hperm : (changedCells g.map (explodeBomb bomb rng g).1.map).Perm
      (directions.flatMap (specHits g.map bomb)) := by
    unfold changedCells
    rw [List.perm_ext_iff_of_nodup (allCells_nodup.filter _) (destroyed_nodup g.map bomb)]
    rintro ⟨x, y⟩
    rw [List.mem_filter, mem_allCells]
    simp only [decide_eq_true_eq]
    rw [a3]
    constructor
    · rintro ⟨_, hne⟩
      by_contra hnot
      rw [if_neg hnot] at hne
      exact hne rfl
    · intro hmem
      obtain ⟨h2, hin⟩ := mem_destroyed hmem
      rw [if_pos hmem, h2]
      exact ⟨hin, by decide⟩
  refine ⟨?_, ?_, ?_, hperm, ?_, ?_⟩
  · intro x y hmem
    refine ⟨(mem_destroyed hmem).1, ?_⟩
    rw [a3, if_pos hmem]
  · intro x y hmem
    rw [a3, if_neg hmem]
  · intro d x y
    exact mem_specHits
  · rw [hperm.length_eq]
    exact destroyed_length g.map bomb
  · rw [hperm.length_eq]
    exact a2

/-! ## Bomb timers -/

theorem mapEvolves_refl (m : Grid) : MapEvolves m m :=
  fun _ _ => Or.inl rfl

theorem mapEvolves_trans {a b c : Grid} (h1 : MapEvolves a b) (h2 : MapEvolves b c) :
    MapEvolves a c := by
  intro x y
  rcases h1 x y with e1 | ⟨e1, e1b⟩ <;> rcases h2 x y with e2 | ⟨e2, e2b⟩
  · exact Or.inl (e2.trans e1)
  · exact Or.inr ⟨e1 ▸ e2, e2b⟩
  · exact Or.inr ⟨e1, e2.trans e1b⟩
  · rw [e1b] at e2
    exact absurd e2 (by decide)

theorem sameCore_refl (g : Game) : SameCore g g :=
  ⟨rfl, rfl, rfl, rfl, rfl, rfl⟩

theorem sameCore_trans {a b c : Game} (h1 : SameCore a b) (h2 : SameCore b c) :
    SameCore a c := by
  obtain ⟨a1, a2, a3, a4, a5, a6⟩ := h1
  obtain ⟨b1, b2, b3, b4, b5, b6⟩ := h2
  exact ⟨b1.trans a1, b2.trans a2, b3.trans a3, b4.trans a4, b5.trans a5, b6.trans a6⟩

theorem explodeBomb_mapEvolves (bomb : Bomb) (rng : Rng) (g : Game) :
    MapEvolves g.map (explodeBomb bomb rng g).1.map := by
  intro x y
  rw [(explodeBomb_spec bomb rng g).2.2.1 x y]
  by_cases h : (x, y) ∈ directions.flatMap (specHits g.map bomb)
  · rw [if_pos h]
    exact Or.inr ⟨(mem_destroyed h).1, rfl⟩
  · rw [if_neg h]
    exact Or.inl rfl

theorem set_eq_take_cons_drop {α : Type} (l : List α) (i : Nat) (a : α) (h : i < l.length) :
    l.set i a = l.take i ++ a :: l.drop (i + 1) := by
  rw [List.set_eq_take_append_cons_drop, if_pos h]

theorem eraseIdx_set_self {α : Type} (l : List α) (i : Nat) (a : α) :
    (l.set i a).eraseIdx i = l.eraseIdx i := by
  induction l generalizing i with
  | nil => simp
  | cons b t ih =>
    cases i with
    | zero => simp
    | succ i => simp [ih]

theorem take_succ_of_getElem? {α : Type} (l : List α) (i : Nat) (a : α) (h : l[i]? = some a) :
    l.take (i + 1) = l.take i ++ [a] := by
  rw [List.take_succ, h]
  rfl

theorem take_take_append {α : Type} (l r : List α) (i : Nat) (h : i ≤ l.length) :
    (l.take i ++ r).take i = l.take i := by
  have hl : (l.take i).length = i := by simp [h]
  rw [List.take_append_eq_append_take, hl]
  simp

theorem drop_take_append {α : Type} (l r : List α) (i : Nat) (h : i ≤ l.length) :
    (l.take i ++ r).drop i = r := by
  have hl : (l.take i).length = i := by simp [h]
  rw [List.drop_append_eq_append_drop, hl]
  simp

theorem updateBombsLoop_spec :
    ∀ (i : Nat) (rng : Rng) (g : Game), i ≤ g.bombs.length →
      (updateBombsLoop i rng g).1.bombs =
          ((g.bombs.take i).filter (fun b => decide (1 < b.timer))).map tickBomb ++
            g.bombs.drop i ∧
        MapEvolves g.map (updateBombsLoop i rng g).1.map ∧
        SameCore g (updateBombsLoop i rng g).1 := by
  intro i
  induction i with
  | zero =>
    intro rng g _
    simp [updateBombsLoop, mapEvolves_refl, sameCore_refl]
  | succ i ih =>
    intro rng g hi
    have hlt : i < g.bombs.length := hi
    obtain ⟨b, hget⟩ : ∃ b, g.bombs[i]? = some b := ⟨_, List.getElem?_eq_getElem hlt⟩
    have htake := take_succ_of_getElem? g.bombs i _ hget
    unfold updateBombsLoop
    simp only [hget]
    by_cases ht : (tickBomb b).timer ≤ 0
    · rw [if_pos ht]
      obtain ⟨_, _, _, e4⟩ := explodeBomb_spec (tickBomb b) rng
        { g with bombs := g.bombs.set i (tickBomb b) }
      have hev := explodeBomb_mapEvolves (tickBomb b) rng
        { g with bombs := g.bombs.set i (tickBomb b) }
      generalize explodeBomb (tickBomb b) rng
        { g with bombs := g.bombs.set i (tickBomb b) } = r at e4 hev ⊢
      have hb : r.1.bombs = g.bombs.set i (tickBomb b) := e4.2.2.2.2.2.1
      have herase : r.1.bombs.eraseIdx i = g.bombs.take i ++ g.bombs.drop (i + 1) := by
        rw [hb, eraseIdx_set_self, List.eraseIdx_eq_take_drop_succ]
      obtain ⟨r1, r2, r3⟩ := ih r.2 { r.1 with bombs := r.1.bombs.eraseIdx i }
        (by
          show i ≤ (r.1.bombs.eraseIdx i).length
          rw [herase, List.length_append, List.length_take, List.length_drop]
          omega)
      refine ⟨?_, ?_, ?_⟩
      · rw [r1]
        show List.map tickBomb (List.filter _ (List.take i (r.1.bombs.eraseIdx i))) ++
          List.drop i (r.1.bombs.eraseIdx i) = _
        rw [herase, take_take_append _ _ _ (Nat.le_of_lt hlt),
          drop_take_append _ _ _ (Nat.le_of_lt hlt), htake, List.filter_append]
        have : ¬ (1 < b.timer) := by
          unfold tickBomb at ht
          simp only at ht
          omega
        simp [this]
      · exact mapEvolves_trans hev r2
      · exact sameCore_trans ⟨e4.1, e4.2.1, e4.2.2.1, e4.2.2.2.1, e4.2.2.2.2.1, e4.2.2.2.2.2.2⟩ r3
    · rw [if_neg ht]
      obtain ⟨r1, r2, r3⟩ := ih rng { g with bombs := g.bombs.set i (tickBomb b) }
        (by
          show i ≤ (g.bombs.set i (tickBomb b)).length
          rw [List.length_set]
          omega)
      refine ⟨?_, r2, r3⟩
      rw [r1]
      show List.map tickBomb (List.filter _ (List.take i (g.bombs.set i (tickBomb b)))) ++
          List.drop i (g.bombs.set i (tickBomb b)) = _
      rw [set_eq_take_cons_drop _ _ _ hlt, take_take_append _ _ _ (Nat.le_of_lt hlt),
        drop_take_append _ _ _ (Nat.le_of_lt hlt), htake, List.filter_append]
      have : 1 < b.timer := by
        unfold tickBomb at ht
        simp only at ht
        omega
      simp [this]

theorem updateBombs_spec (rng : Rng) (g : Game) :
    (updateBombs rng g).1.bombs =
        (g.bombs.filter (fun b => decide (1 < b.timer))).map tickBomb ∧
      MapEvolves g.map (updateBombs rng g).1.map ∧
      SameCore g (updateBombs rng g).1 := by
  obtain ⟨r1, r2, r3⟩ := updateBombsLoop_spec g.bombs.length rng g (Nat.le_refl _)
  refine ⟨?_, r2, r3⟩
  unfold updateBombs
  rw [r1]
  simp

/-! ## The generated map -/

theorem genCell_eq_one (row col : Nat) (rng : Rng) :
    (genCell row col rng).1 = 1 ↔
      (row = 0 ∨ row = rows - 1 ∨ col = 0 ∨ col = cols - 1 ∨ (row % 2 = 0 ∧ col % 2 = 0)) := by
  unfold genCell
  split
  · rename_i h
    simp only [true_iff]
    tauto
  · rename_i h
    split
    · rename_i h2
      simp only [true_iff]
      tauto
    · rename_i h2
      have hne : ¬ (row = 0 ∨ row = rows - 1 ∨ col = 0 ∨ col = cols - 1 ∨
          (row % 2 = 0 ∧ col % 2 = 0)) := by tauto
      split
      · simp only [OfNat.ofNat_ne_one, false_iff]
        exact hne
      · simp only [zero_ne_one, false_iff]
        exact hne

theorem genRow_getElem? (row : Nat) :
    ∀ (n col : Nat) (rng : Rng) (k : Nat),
      (n ≤ k ∧ (genRow row n col rng).1[k]? = none) ∨
        (k < n ∧ ∃ r, (genRow row n col rng).1[k]? = some (genCell row (col + k) r).1) := by
  intro n
  induction n with
  | zero =>
    intro col rng k
    left
    simp [genRow]
  | succ n ih =>
    intro col rng k
    cases k with
    | zero =>
      right
      exact ⟨Nat.succ_pos n, rng, by simp [genRow]⟩
    | succ k =>
      rcases ih (col + 1) (genCell row col rng).2 k with ⟨h1, h2⟩ | ⟨h1, r, h2⟩
      · left
        refine ⟨by omega, ?_⟩
        simpa [genRow] using h2
      · right
        refine ⟨by omega, r, ?_⟩
        have : col + (k + 1) = col + 1 + k := by omega
        rw [this]
        simpa [genRow] using h2

theorem genRows_getElem? :
    ∀ (n row : Nat) (rng : Rng) (k : Nat),
      (n ≤ k ∧ (genRows n row rng).1[k]? = none) ∨
        (k < n ∧ ∃ r, (genRows n row rng).1[k]? = some (genRow (row + k) cols 0 r).1) := by
  intro n
  induction n with
  | zero =>
    intro row rng k
    left
    simp [genRows]
  | succ n ih =>
    intro row rng k
    cases k with
    | zero =>
      right
      exact ⟨Nat.succ_pos n, rng, by simp [genRows]⟩
    | succ k =>
      rcases ih (row + 1) (genRow row cols 0 rng).2 k with ⟨h1, h2⟩ | ⟨h1, r, h2⟩
      · left
        refine ⟨by omega, ?_⟩
        simpa [genRows] using h2
      · right
        refine ⟨by omega, r, ?_⟩
        have : row + (k + 1) = row + 1 + k := by omega
        rw [this]
        simpa [genRows] using h2

theorem cellAt_genRows (rng : Rng) (x y : Int) :
    (¬ InBounds x y ∧ cellAt (genRows rows 0 rng).1 x y = none) ∨
      (InBounds x y ∧ ∃ r, cellAt (genRows rows 0 rng).1 x y =
        some (genCell y.toNat x.toNat r).1) := by
  unfold cellAt
  by_cases hneg : x < 0 ∨ y < 0
  · left
    rw [if_pos hneg]
    refine ⟨?_, rfl⟩
    unfold InBounds
    omega
  · rw [if_neg hneg]
    rcases genRows_getElem? rows 0 rng y.toNat with ⟨h1, h2⟩ | ⟨h1, r, h2⟩
    · left
      rw [h2]
      refine ⟨?_, rfl⟩
      unfold InBounds
      omega
    · rw [h2]
      simp only [Nat.zero_add]
      rcases genRow_getElem? y.toNat cols 0 r x.toNat with ⟨k1, k2⟩ | ⟨k1, r1, k2⟩
      · left
        rw [k2]
        refine ⟨?_, rfl⟩
        unfold InBounds
        omega
      · right
        rw [k2]
        simp only [Nat.zero_add]
        refine ⟨?_, r1, rfl⟩
        unfold InBounds
        omega

theorem genRows_solidExact (rng : Rng) : SolidExact (genRows rows 0 rng).1 := by
  intro x y
  rcases cellAt_genRows rng x y with ⟨h1, h2⟩ | ⟨h1, r, h2⟩
  · rw [h2]
    constructor
    · intro h
      exact absurd h (by simp)
    · intro h
      exact absurd h.1 h1
  · rw [h2]
    simp only [Option.some.injEq]
    rw [genCell_eq_one]
    unfold SolidLattice
    unfold InBounds at h1
    simp only [rows, cols] at h1 ⊢
    constructor
    · intro h
      refine ⟨by unfold InBounds; simp only [rows, cols]; omega, ?_⟩
      omega
    · rintro ⟨_, h⟩
      omega

theorem solidExact_setCell_zero {m : Grid} (h : SolidExact m) (x y : Int)
    (hxy : ¬ SolidLattice x y) : SolidExact (setCell m x y 0) := by
  intro x1 y1
  rw [cellAt_setCell]
  by_cases hc : x1 = x ∧ y1 = y ∧ (cellAt m x y).isSome = true
  · rw [if_pos hc]
    obtain ⟨rfl, rfl, _⟩ := hc
    constructor
    · intro h0
      exact absurd h0 (by decide)
    · intro h0
      exact absurd h0 hxy
  · rw [if_neg hc]
    exact h x1 y1

theorem generateMap_solidExact (rng : Rng) : SolidExact (generateMap rng).1 := by
  show SolidExact (setCell (setCell (setCell (genRows rows 0 rng).1 1 1 0) 2 1 0) 1 2 0)
  apply solidExact_setCell_zero
  · apply solidExact_setCell_zero
    · apply solidExact_setCell_zero
      · exact genRows_solidExact rng
      · decide
    · decide
  · decide

/-! ## Enemy placement -/

theorem placeEnemy_some :
    ∀ (fuel : Nat) (m : Grid) (rng : Rng) (x y : Int) (r : Rng),
      placeEnemy fuel m rng = some (x, y, r) →
        cellAt m x y = some 0 ∧ ¬ (x ≤ 3 ∧ y ≤ 3) := by
  intro fuel
  induction fuel with
  | zero =>
    intro m rng x y r h
    simp [placeEnemy] at h
  | succ fuel ih =>
    intro m rng x y r h
    unfold placeEnemy at h
    simp only at h
    split at h
    · exact ih m _ x y r h
    · rename_i hc
      simp only [Option.some.injEq, Prod.mk.injEq] at h
      obtain ⟨rfl, rfl, _⟩ := h
      push_neg at hc
      exact ⟨hc.1, by
        intro h3
        have := hc.2 h3.1
        omega⟩

theorem addEnemies_spec (fuel : Nat) :
    ∀ (n : Nat) (rng : Rng) (g g1 : Game) (r : Rng),
      addEnemies fuel n rng g = some (g1, r) →
        ∃ new : List Enemy, g1 = { g with enemies := g.enemies ++ new } ∧ new.length = n ∧
          ∀ e ∈ new, cellAt g.map e.x e.y = some 0 := by
  intro n
  induction n with
  | zero =>
    intro rng g g1 r h
    simp only [addEnemies, Option.some.injEq, Prod.mk.injEq] at h
    exact ⟨[], by simp [← h.1], rfl, by simp⟩
  | succ n ih =>
    intro rng g g1 r h
    unfold addEnemies at h
    cases hp : placeEnemy fuel g.map rng with
    | none => simp [hp] at h
    | some p =>
      obtain ⟨x, y, rng1⟩ := p
      simp only [hp] at h
      obtain ⟨new, h1, h2, h3⟩ := ih _ _ _ _ h
      refine ⟨⟨x, y, (rng1 0).floorMul 4, 0⟩ :: new, ?_, by simp [h2], ?_⟩
      · rw [h1]
        simp
      · intro e he
        rw [List.mem_cons] at he
        rcases he with rfl | he
        · exact (placeEnemy_some fuel g.map rng x y rng1 hp).1
        · exact h3 e he

theorem initializeLevel_spec (fuel : Nat) (rng : Rng) (g g1 : Game) (r : Rng)
    (h : initializeLevel fuel rng g = some (g1, r)) :
    g1 = { g with map := (generateMap rng).1, enemies := g1.enemies } ∧
      g1.enemies.length = (3 + g.level).toNat ∧
      ∀ e ∈ g1.enemies, cellAt g1.map e.x e.y = some 0 := by
  unfold initializeLevel at h
  obtain ⟨new, h1, h2, h3⟩ := addEnemies_spec fuel _ _ _ _ _ h
  subst h1
  exact ⟨rfl, h2, h3⟩

/-! ## Frame lemmas for the per-tick updates -/

theorem updateExplosionsLoop_frame :
    ∀ (i : Nat) (g : Game), ∃ ex, updateExplosionsLoop i g = { g with explosions := ex } := by
  intro i
  induction i with
  | zero =>
    intro g
    exact ⟨g.explosions, rfl⟩
  | succ i ih =>
    intro g
    unfold updateExplosionsLoop
    cases g.explosions[i]? with
    | none => exact ih g
    | some e =>
      simp only
      split
      · obtain ⟨ex, h⟩ := ih { g with explosions :=
          (g.explosions.set i (tickExplosion e)).eraseIdx i }
        exact ⟨ex, h⟩
      · obtain ⟨ex, h⟩ := ih { g with explosions := g.explosions.set i (tickExplosion e) }
        exact ⟨ex, h⟩

theorem updateExplosions_frame (g : Game) :
    ∃ ex, updateExplosions g = { g with explosions := ex } :=
  updateExplosionsLoop_frame _ g

theorem canMoveTo_true {g : Game} {x y : Int} (h : canMoveTo g x y = true) :
    InBounds x y ∧ cellAt g.map x y ≠ some 1 ∧ cellAt g.map x y ≠ some 2 ∧
      ∀ b ∈ g.bombs, ¬ (b.x = x ∧ b.y = y) := by
  unfold canMoveTo at h
  split at h
  · exact absurd h (by decide)
  · rename_i h1
    split at h
    · exact absurd h (by decide)
    · rename_i h2
      split at h
      · exact absurd h (by decide)
      · rename_i h3
        push_neg at h1 h2
        refine ⟨by unfold InBounds; omega, h2.1, h2.2, ?_⟩
        intro b hb hxy
        apply h3
        rw [List.any_eq_true]
        exact ⟨b, hb, by simpa using hxy⟩

theorem updateEnemy_pos (g : Game) (e : Enemy) (rng : Rng) :
    ((updateEnemy g e rng).1.x = e.x ∧ (updateEnemy g e rng).1.y = e.y) ∨
      canMoveTo g (updateEnemy g e rng).1.x (updateEnemy g e rng).1.y = true := by
  unfold updateEnemy
  simp only
  split
  · split
    · left
      exact ⟨rfl, rfl⟩
    · rename_i dir _
      by_cases hm : canMoveTo g (e.x + dir.x) (e.y + dir.y) = true
      · right
        simp only [hm, if_true, Bool.not_true, Bool.false_eq_true, if_false]
        split <;> exact hm
      · left
        simp [hm]
  · left
    exact ⟨rfl, rfl⟩

theorem updateEnemiesList_mem (g : Game) :
    ∀ (l : List Enemy) (rng : Rng) (e1 : Enemy), e1 ∈ (updateEnemiesList g l rng).1 →
      ∃ e ∈ l, (e1.x = e.x ∧ e1.y = e.y) ∨ canMoveTo g e1.x e1.y = true := by
  intro l
  induction l with
  | nil =>
    intro rng e1 h
    simp [updateEnemiesList] at h
  | cons e l ih =>
    intro rng e1 h
    simp only [updateEnemiesList, List.mem_cons] at h
    rcases h with rfl | h
    · exact ⟨e, by simp, updateEnemy_pos g e rng⟩
    · obtain ⟨e0, h0, h1⟩ := ih _ e1 h
      exact ⟨e0, by simp [h0], h1⟩

theorem updateEnemiesList_length (g : Game) :
    ∀ (l : List Enemy) (rng : Rng), (updateEnemiesList g l rng).1.length = l.length := by
  intro l
  induction l with
  | nil =>
    intro rng
    rfl
  | cons e l ih =>
    intro rng
    simp [updateEnemiesList, ih]

theorem enemyExplosionLoop_frame :
    ∀ (i : Nat) (g : Game), ∃ en bg sc,
      enemyExplosionLoop i g = { g with enemies := en, currentBgIndex := bg, score := sc } ∧
        en.Sublist g.enemies := by
  intro i
  induction i with
  | zero =>
    intro g
    exact ⟨g.enemies, g.currentBgIndex, g.score, rfl, List.Sublist.refl _⟩
  | succ i ih =>
    intro g
    unfold enemyExplosionLoop
    cases g.enemies[i]? with
    | none => exact ih g
    | some en0 =>
      simp only
      split
      · obtain ⟨en, bg, sc, h, hs⟩ := ih (changeBackgroundColor
          { g with enemies := g.enemies.eraseIdx i, score := g.score + 100 })
        exact ⟨en, bg, sc, h, hs.trans (List.eraseIdx_sublist _ _)⟩
      · exact ih g

theorem powerupLoop_frame :
    ∀ (i : Nat) (g : Game), ∃ pl pw sc,
      powerupLoop i g = { g with player := pl, powerups := pw, score := sc } ∧
        pl.x = g.player.x ∧ pl.y = g.player.y ∧ g.player.bombCount ≤ pl.bombCount ∧
        g.player.bombRange ≤ pl.bombRange := by
  intro i
  induction i with
  | zero =>
    intro g
    exact ⟨g.player, g.powerups, g.score, rfl, rfl, rfl, le_refl _, le_refl _⟩
  | succ i ih =>
    intro g
    unfold powerupLoop
    cases g.powerups[i]? with
    | none => exact ih g
    | some p =>
      simp only
      split
      · obtain ⟨pl, pw, sc, h, h1, h2, h3, h4⟩ := ih
          { g with player := applyPowerup p g.player,
                   powerups := g.powerups.eraseIdx i,
                   score := g.score + 50 }
        refine ⟨pl, pw, sc, h, ?_, ?_, ?_, ?_⟩
        · rw [h1]
          unfold applyPowerup
          cases p.type <;> rfl
        · rw [h2]
          unfold applyPowerup
          cases p.type <;> rfl
        · refine le_trans ?_ h3
          unfold applyPowerup
          cases p.type <;> simp
        · refine le_trans ?_ h4
          unfold applyPowerup
          cases p.type <;> simp
      · exact ih g

/-! ## The invariant of the reachable states -/

theorem checkCollisions_hit (g : Game) (h : playerIsHit g = true) :
    checkCollisions g = playerHit g := by
  unfold playerIsHit at h
  rw [Bool.or_eq_true] at h
  unfold checkCollisions
  split
  · rfl
  · rename_i h1
    rw [if_pos (h.resolve_left h1)]

theorem checkCollisions_not_hit (g : Game) (h : playerIsHit g = false) :
    ∃ en bg sc pl pw,
      checkCollisions g =
        { g with enemies := en, currentBgIndex := bg, score := sc, player := pl,
                 powerups := pw } ∧
      en.Sublist g.enemies ∧ pl.x = g.player.x ∧ pl.y = g.player.y ∧
      g.player.bombCount ≤ pl.bombCount ∧ g.player.bombRange ≤ pl.bombRange := by
  unfold playerIsHit at h
  rw [Bool.or_eq_false_iff] at h
  unfold checkCollisions
  simp only [h.1, h.2, Bool.false_eq_true, if_false]
  obtain ⟨en, bg, sc, h1, hs⟩ := enemyExplosionLoop_frame g.enemies.length g
  rw [h1]
  obtain ⟨pl, pw, sc1, h2, h3, h4, h5, h6⟩ := powerupLoop_frame g.powerups.length
    { g with enemies := en, currentBgIndex := bg, score := sc }
  exact ⟨en, bg, sc1, pl, pw, h2, hs, h3, h4, h5, h6⟩

theorem SolidExact.of_evolves {m m1 : Grid} (h : SolidExact m) (he : MapEvolves m m1) :
    SolidExact m1 := by
  intro x y
  rw [← h x y]
  rcases he x y with e | ⟨e1, e2⟩
  · rw [e]
  · rw [e1, e2]
    constructor <;> intro h0 <;> exact absurd h0 (by decide)

theorem MapEvolves.not_wall {m m1 : Grid} (he : MapEvolves m m1) {x y : Int}
    (h : cellAt m x y ≠ some 1 ∧ cellAt m x y ≠ some 2) :
    cellAt m1 x y ≠ some 1 ∧ cellAt m1 x y ≠ some 2 := by
  rcases he x y with e | ⟨_, e2⟩
  · rw [e]
    exact h
  · rw [e2]
    exact ⟨by decide, by decide⟩

theorem MapEvolves.not_solid {m m1 : Grid} (he : MapEvolves m m1) {x y : Int}
    (h : cellAt m x y ≠ some 1) : cellAt m1 x y ≠ some 1 := by
  rcases he x y with e | ⟨_, e2⟩
  · rw [e]
    exact h
  · rw [e2]
    decide

theorem moveTo_cases (g : Game) (x y : Int) :
    (if canMoveTo g x y = true then { g with player := { g.player with x := x, y := y } }
      else g) = g ∨
      ∃ x1 y1, canMoveTo g x1 y1 = true ∧
        (if canMoveTo g x y = true then { g with player := { g.player with x := x, y := y } }
          else g) = { g with player := { g.player with x := x1, y := y1 } } := by
  by_cases hm : canMoveTo g x y = true
  · right
    exact ⟨x, y, hm, by rw [if_pos hm]⟩
  · left
    rw [if_neg hm]

theorem handleInput_cases (keys : Keys) (g : Game) :
    handleInput keys g = g ∨
      ∃ x y, canMoveTo g x y = true ∧
        handleInput keys g = { g with player := { g.player with x := x, y := y } } :=
  moveTo_cases g _ _

theorem inv_handleInput (keys : Keys) (g : Game) (h : Inv g) : Inv (handleInput keys g) := by
  rcases handleInput_cases keys g with e | ⟨x, y, hm, e⟩
  · rw [e]
    exact h
  · rw [e]
    exact ⟨h.solid, h.cap, h.distinct, (canMoveTo_true hm).2.1, h.enemies⟩

theorem inv_updateBombs (rng : Rng) (g : Game) (h : Inv g) : Inv (updateBombs rng g).1 := by
  obtain ⟨hb, hev, hc⟩ := updateBombs_spec rng g
  obtain ⟨_, _, _, _, hp, hen⟩ := hc
  refine ⟨h.solid.of_evolves hev, ?_, ?_, ?_, ?_⟩
  · rw [hb, hp, List.length_map]
    have := List.length_filter_le (fun b => decide (1 < b.timer)) g.bombs
    have := h.cap
    omega
  · rw [hb, List.pairwise_map]
    exact List.Pairwise.sublist (List.filter_sublist _) h.distinct
  · rw [hp]
    exact hev.not_solid h.player
  · rw [hen]
    intro e he
    exact hev.not_wall (h.enemies e he)

theorem inv_updateExplosions (g : Game) (h : Inv g) : Inv (updateExplosions g) := by
  obtain ⟨ex, he⟩ := updateExplosions_frame g
  rw [he]
  exact ⟨h.solid, h.cap, h.distinct, h.player, h.enemies⟩

theorem inv_updateEnemies (rng : Rng) (g : Game) (h : Inv g) : Inv (updateEnemies rng g).1 := by
  refine ⟨h.solid, h.cap, h.distinct, h.player, ?_⟩
  intro e1 he1
  obtain ⟨e, he, hpos⟩ := updateEnemiesList_mem g g.enemies rng e1 he1
  rcases hpos with ⟨hx, hy⟩ | hm
  · show cellAt g.map e1.x e1.y ≠ some 1 ∧ cellAt g.map e1.x e1.y ≠ some 2
    rw [hx, hy]
    exact h.enemies e he
  · exact ⟨(canMoveTo_true hm).2.1, (canMoveTo_true hm).2.2.1⟩

theorem not_solidLattice_start : ¬ SolidLattice 1 1 := by
  decide

theorem inv_playerHit (g : Game) (h : Inv g) : Inv (playerHit g) := by
  unfold playerHit gameOver
  simp only
  split
  · exact ⟨h.solid, h.cap, h.distinct, h.player, h.enemies⟩
  · refine ⟨h.solid, h.cap, h.distinct, ?_, h.enemies⟩
    intro h1
    exact not_solidLattice_start ((h.solid 1 1).1 h1)

theorem inv_checkCollisions (g : Game) (h : Inv g) : Inv (checkCollisions g) := by
  cases hh : playerIsHit g with
  | true =>
    rw [checkCollisions_hit g hh]
    exact inv_playerHit g h
  | false =>
    obtain ⟨en, bg, sc, pl, pw, he, hs, hx, hy, hc, _⟩ := checkCollisions_not_hit g hh
    rw [he]
    refine ⟨h.solid, le_trans h.cap hc, h.distinct, ?_, ?_⟩
    · show cellAt g.map pl.x pl.y ≠ some 1
      rw [hx, hy]
      exact h.player
    · intro e hmem
      exact h.enemies e (hs.subset hmem)

theorem inv_initializeLevel (fuel : Nat) (rng : Rng) (g g1 : Game) (r : Rng)
    (hs : SolidExact g.map) (hp : cellAt g.map g.player.x g.player.y ≠ some 1)
    (hc : (g.bombs.length : Int) ≤ g.player.bombCount)
    (hd : g.bombs.Pairwise (fun a b => ¬ (a.x = b.x ∧ a.y = b.y)))
    (h : initializeLevel fuel rng g = some (g1, r)) : Inv g1 := by
  obtain ⟨h1, _, h3⟩ := initializeLevel_spec fuel rng g g1 r h
  have hmap : g1.map = (generateMap rng).1 := by rw [h1]
  have hpl : g1.player = g.player := by rw [h1]
  have hbs : g1.bombs = g.bombs := by rw [h1]
  refine ⟨?_, ?_, ?_, ?_, ?_⟩
  · rw [hmap]
    exact generateMap_solidExact rng
  · rw [hbs, hpl]
    exact hc
  · rw [hbs]
    exact hd
  · rw [hmap, hpl]
    intro h0
    exact hp ((hs _ _).2 ((generateMap_solidExact rng _ _).1 h0))
  · intro e he
    rw [h3 e he]
    exact ⟨by decide, by decide⟩

theorem inv_nextLevel (fuel : Nat) (rng : Rng) (g g1 : Game) (r : Rng) (hi : Inv g)
    (h : nextLevel fuel rng g = some (g1, r)) : Inv g1 :=
  inv_initializeLevel fuel rng { g with level := g.level + 1, score := g.score + 500 } g1 r
    hi.solid hi.player hi.cap hi.distinct h

theorem inv_of_fresh (fuel : Nat) (rng : Rng) (g g1 : Game) (r : Rng)
    (hb : g.bombs = []) (hx : g.player.x = 1) (hy : g.player.y = 1)
    (hc : g.player.bombCount = 1)
    (h : initializeLevel fuel rng g = some (g1, r)) : Inv g1 := by
  obtain ⟨h1, _, h3⟩ := initializeLevel_spec fuel rng g g1 r h
  have hmap : g1.map = (generateMap rng).1 := by rw [h1]
  have hpl : g1.player = g.player := by rw [h1]
  have hbs : g1.bombs = g.bombs := by rw [h1]
  refine ⟨?_, ?_, ?_, ?_, ?_⟩
  · rw [hmap]
    exact generateMap_solidExact rng
  · rw [hbs, hpl, hb, hc]
    decide
  · rw [hbs, hb]
    exact List.Pairwise.nil
  · rw [hmap, hpl, hx, hy]
    intro h0
    exact not_solidLattice_start ((generateMap_solidExact rng _ _).1 h0)
  · intro e he
    rw [h3 e he]
    exact ⟨by decide, by decide⟩

theorem inv_restart (fuel : Nat) (rng : Rng) (g g1 : Game) (r : Rng)
    (h : restart fuel rng g = some (g1, r)) : Inv g1 :=
  inv_of_fresh fuel rng _ g1 r rfl rfl rfl rfl h

theorem inv_construct (fuel : Nat) (rng : Rng) (g1 : Game) (r : Rng)
    (h : construct fuel rng = some (g1, r)) : Inv g1 :=
  inv_of_fresh fuel rng _ g1 r rfl rfl rfl rfl h

theorem inv_dropBomb (g : Game) (h : Inv g) : Inv (dropBomb g) := by
  unfold dropBomb
  split
  · exact h
  · rename_i h1
    split
    · exact h
    · rename_i h2
      refine ⟨h.solid, ?_, ?_, h.player, h.enemies⟩
      · show (((g.bombs ++ [_]).length : Nat) : Int) ≤ g.player.bombCount
        rw [List.length_append]
        simp only [List.length_singleton]
        push_cast
        omega
      · show (g.bombs ++ [_]).Pairwise _
        rw [List.pairwise_append]
        refine ⟨h.distinct, List.pairwise_singleton _ _, ?_⟩
        intro a ha b hb
        rw [List.mem_singleton] at hb
        subst hb
        intro hab
        apply h2
        rw [List.any_eq_true]
        exact ⟨a, ha, by simpa using hab⟩

theorem inv_update (fuel : Nat) (keys : Keys) (rng : Rng) (g g1 : Game) (r : Rng)
    (h : Inv g) (hu : update fuel keys rng g = some (g1, r)) : Inv g1 := by
  unfold update at hu
  split at hu
  · simp only [Option.some.injEq, Prod.mk.injEq] at hu
    rw [← hu.1]
    exact h
  · simp only at hu
    have h5 : Inv (checkCollisions (updateEnemies (updateBombs rng (handleInput keys g)).2
        (updateExplosions (updateBombs rng (handleInput keys g)).1)).1) :=
      inv_checkCollisions _ (inv_updateEnemies _ _ (inv_updateExplosions _
        (inv_updateBombs _ _ (inv_handleInput keys g h))))
    split at hu
    · exact inv_nextLevel fuel _ _ g1 r h5 hu
    · simp only [Option.some.injEq, Prod.mk.injEq] at hu
      rw [← hu.1]
      exact h5

theorem reachable_inv (g : Game) (h : Reachable g) : Inv g := by
  induction h with
  | construct fuel rng g r hc => exact inv_construct fuel rng g r hc
  | update fuel keys rng g g1 r _ hu ih => exact inv_update fuel keys rng g g1 r ih hu
  | dropBomb g _ ih => exact inv_dropBomb g ih
  | restart fuel rng g g1 r _ hr _ => exact inv_restart fuel rng g g1 r hr

/-! ## Concrete runs -/

theorem construct_halfRng_isSome : (construct 1 halfRng).isSome = true := by
  decide!

theorem initialState_reachable : Reachable initialState := by
  have hs := construct_halfRng_isSome
  cases h : construct 1 halfRng with
  | none =>
    rw [h] at hs
    exact absurd hs (by decide)
  | some p =>
    have he : initialState = p.1 := by
      unfold initialState
      rw [h]
    rw [he]
    exact Reachable.construct 1 halfRng p.1 p.2 h

theorem runTicks_reachable (fuel : Nat) (rng : Rng) :
    ∀ (ks : List Keys) (g g1 : Game), Reachable g → runTicks fuel rng ks g = some g1 →
      Reachable g1 := by
  intro ks
  induction ks with
  | nil =>
    intro g g1 hg h
    simp only [runTicks, Option.some.injEq] at h
    rw [← h]
    exact hg
  | cons k ks ih =>
    intro g g1 hg h
    unfold runTicks at h
    cases hu : update fuel k rng g with
    | none =>
      rw [hu] at h
      exact absurd h (by simp)
    | some p =>
      rw [hu] at h
      exact ih p.1 g1 (Reachable.update fuel k rng g p.1 p.2 hg hu) h

set_option maxRecDepth 100000 in
theorem walk_isSome : (runTicks 1 halfRng walkKeys initialState).isSome = true := by
  decide!

theorem ambushState_reachable : Reachable ambushState := by
  have hs := walk_isSome
  cases h : runTicks 1 halfRng walkKeys initialState with
  | none =>
    rw [h] at hs
    exact absurd hs (by decide)
  | some g =>
    have he : ambushState = g := by
      unfold ambushState
      rw [h]
    rw [he]
    exact runTicks_reachable 1 halfRng walkKeys initialState g initialState_reachable h

/-! ## Actors and walls (C2) -/

/-- C2, counterexample: after `dropBomb` in the constructed state the player stands at
(1,1) on the cell of the bomb just placed, in a reachable state. -/
theorem player_on_bomb_cell :
    Reachable (dropBomb initialState) ∧
      ∃ b ∈ (dropBomb initialState).bombs,
        b.x = (dropBomb initialState).player.x ∧ b.y = (dropBomb initialState).player.y := by
  refine ⟨Reachable.dropBomb _ initialState_reachable, ⟨1, 1, 120, 2⟩, ?_, ?_, ?_⟩
  · decide!
  · decide!
  · decide!

/-- C2, amended: in every reachable state the player's cell is not a solid wall, and no
enemy's cell is a solid or a breakable wall. -/
theorem actors_not_in_walls (g : Game) (h : Reachable g) :
    cellAt g.map g.player.x g.player.y ≠ some 1 ∧
      ∀ e ∈ g.enemies, cellAt g.map e.x e.y ≠ some 1 ∧ cellAt g.map e.x e.y ≠ some 2 :=
  ⟨(reachable_inv g h).player, (reachable_inv g h).enemies⟩

/-- Witness of `actors_not_in_walls` at the state reached by `dropBomb`. -/
theorem actors_not_in_walls_witness :
    Reachable (dropBomb initialState) ∧
      cellAt (dropBomb initialState).map (dropBomb initialState).player.x
        (dropBomb initialState).player.y ≠ some 1 ∧
      ∀ e ∈ (dropBomb initialState).enemies,
        cellAt (dropBomb initialState).map e.x e.y ≠ some 1 ∧
          cellAt (dropBomb initialState).map e.x e.y ≠ some 2 :=
  ⟨Reachable.dropBomb _ initialState_reachable,
    actors_not_in_walls _ (Reachable.dropBomb _ initialState_reachable)⟩

/-! ## Bomb capacity and bomb cells (C4, C5) -/

/-- C4: in every reachable state the number of live bombs is at most
`player.bombCount`. -/
theorem bombs_le_capacity (g : Game) (h : Reachable g) :
    (g.bombs.length : Int) ≤ g.player.bombCount :=
  (reachable_inv g h).cap

/-- Witness of `bombs_le_capacity` at the state reached by `dropBomb`. -/
theorem bombs_le_capacity_witness :
    Reachable (dropBomb initialState) ∧
      ((dropBomb initialState).bombs.length : Int) ≤ (dropBomb initialState).player.bombCount :=
  ⟨Reachable.dropBomb _ initialState_reachable,
    bombs_le_capacity _ (Reachable.dropBomb _ initialState_reachable)⟩

/-- C5: in every reachable state no two bombs of the collection are on the same cell. -/
theorem bombs_distinct_cells (g : Game) (h : Reachable g) :
    g.bombs.Pairwise (fun a b => ¬ (a.x = b.x ∧ a.y = b.y)) :=
  (reachable_inv g h).distinct

/-! ## Solid walls (C7) -/

/-- C7: the grid that `initializeLevel` builds is solid on the whole border and on the
interior cells with even row and even column, for every outcome of the rolls; a
detonation leaves every solid cell solid; and in every reachable state these cells are
solid, so the solid cells of any two reachable states are the same. -/
theorem solid_walls_permanent :
    (∀ rng x y, SolidLattice x y → cellAt (generateMap rng).1 x y = some 1) ∧
      (∀ fuel rng g g1 r, initializeLevel fuel rng g = some (g1, r) →
        ∀ x y, SolidLattice x y → cellAt g1.map x y = some 1) ∧
      (∀ bomb rng g x y, cellAt g.map x y = some 1 →
        cellAt (explodeBomb bomb rng g).1.map x y = some 1) ∧
      (∀ g, Reachable g → ∀ x y, SolidLattice x y → cellAt g.map x y = some 1) ∧
      (∀ g g1, Reachable g → Reachable g1 →
        ∀ x y, cellAt g.map x y = some 1 → cellAt g1.map x y = some 1) := by
  refine ⟨?_, ?_, ?_, ?_, ?_⟩
  · intro rng x y h
    exact (generateMap_solidExact rng x y).2 h
  · intro fuel rng g g1 r h x y hl
    have hm : g1.map = (generateMap rng).1 := by
      rw [(initializeLevel_spec fuel rng g g1 r h).1]
    rw [hm]
    exact (generateMap_solidExact rng x y).2 hl
  · intro bomb rng g x y h
    rcases explodeBomb_mapEvolves bomb rng g x y with e | ⟨e, _⟩
    · rw [e]
      exact h
    · rw [h] at e
      exact absurd e (by decide)
  · intro g hg x y hl
    exact ((reachable_inv g hg).solid x y).2 hl
  · intro g g1 hg hg1 x y h
    exact ((reachable_inv g1 hg1).solid x y).2 (((reachable_inv g hg).solid x y).1 h)

/-! ## A tick with no key held (C3) -/

theorem handleInput_noKeys (g : Game) : handleInput noKeys g = g := by
  unfold handleInput noKeys
  simp only [Bool.or_self, Bool.false_eq_true, if_false]
  split <;> rfl

theorem beforeCollisions_spec (keys : Keys) (rng : Rng) (g : Game) :
    (beforeCollisions keys rng g).player = (handleInput keys g).player ∧
      (beforeCollisions keys rng g).bombs =
        ((handleInput keys g).bombs.filter (fun b => decide (1 < b.timer))).map tickBomb ∧
      (beforeCollisions keys rng g).lives = g.lives := by
  obtain ⟨hb, _, hc⟩ := updateBombs_spec rng (handleInput keys g)
  obtain ⟨hl, _, _, _, hp, _⟩ := hc
  obtain ⟨ex, he⟩ := updateExplosions_frame (updateBombs rng (handleInput keys g)).1
  have hlives : (handleInput keys g).lives = g.lives := by
    rcases handleInput_cases keys g with e | ⟨x, y, _, e⟩ <;> rw [e]
  unfold beforeCollisions updateEnemies
  simp only
  rw [he]
  exact ⟨hp, hb, hl.trans hlives⟩

theorem update_running (fuel : Nat) (keys : Keys) (rng : Rng) (g : Game)
    (hr : g.gameRunning = true) :
    ∃ r, update fuel keys rng g =
      if (checkCollisions (beforeCollisions keys rng g)).enemies.length = 0 then
        nextLevel fuel r (checkCollisions (beforeCollisions keys rng g))
      else some (checkCollisions (beforeCollisions keys rng g), r) := by
  refine ⟨(updateEnemies (updateBombs rng (handleInput keys g)).2
    (updateExplosions (updateBombs rng (handleInput keys g)).1)).2, ?_⟩
  unfold update
  rw [if_neg (by simp [hr])]
  rfl

theorem nextLevel_frame (fuel : Nat) (rng : Rng) (g g1 : Game) (r : Rng)
    (h : nextLevel fuel rng g = some (g1, r)) :
    g1.player = g.player ∧ g1.bombs = g.bombs ∧ g1.lives = g.lives := by
  have h1 := (initializeLevel_spec fuel rng _ g1 r h).1
  refine ⟨?_, ?_, ?_⟩ <;> rw [h1]

theorem checkCollisions_player (g : Game) :
    (checkCollisions g).bombs = g.bombs ∧
      (playerIsHit g = false →
        (checkCollisions g).player.x = g.player.x ∧
          (checkCollisions g).player.y = g.player.y ∧ (checkCollisions g).lives = g.lives) ∧
      (playerIsHit g = true →
        (checkCollisions g).lives = g.lives - 1 ∧
          (0 < g.lives - 1 →
            (checkCollisions g).player.x = 1 ∧ (checkCollisions g).player.y = 1) ∧
          (g.lives - 1 ≤ 0 →
            (checkCollisions g).player.x = g.player.x ∧
              (checkCollisions g).player.y = g.player.y)) := by
  cases hh : playerIsHit g with
  | true =>
    rw [checkCollisions_hit g hh]
    refine ⟨?_, fun h => absurd h (by decide), fun _ => ⟨?_, ?_, ?_⟩⟩
    · unfold playerHit gameOver
      simp only
      split <;> rfl
    · unfold playerHit gameOver
      simp only
      split <;> rfl
    · intro h
      have h1 : ¬ (g.lives - 1 ≤ 0) := by omega
      simp [playerHit, h1]
    · intro h
      simp [playerHit, h, gameOver]
  | false =>
    obtain ⟨en, bg, sc, pl, pw, he, _, hx, hy, _, _⟩ := checkCollisions_not_hit g hh
    rw [he]
    exact ⟨rfl, fun _ => ⟨hx, hy, rfl⟩, fun h => absurd h (by decide)⟩

/-- C3, counterexample: in the reachable running state `ambushState` the player stands
at (9,7); the tick with no key held moves an enemy onto that cell, and the player is
put back at (1,1). -/
theorem idle_tick_moves_player :
    Reachable ambushState ∧ ambushState.gameRunning = true ∧
      (ambushState.player.x, ambushState.player.y) = (9, 7) ∧
      (update 1 noKeys halfRng ambushState).map (fun p => (p.1.player.x, p.1.player.y)) =
        some (1, 1) := by
  refine ⟨ambushState_reachable, ?_, ?_, ?_⟩
  · set_option maxRecDepth 100000 in decide!
  · set_option maxRecDepth 100000 in decide!
  · set_option maxRecDepth 100000 in decide!

/-- C3, amended: an `update` tick of a running game with no movement key held adds no
bomb (the bombs afterwards are the earlier bombs with a timer above 1, each one tick
older) and leaves the player's position unchanged unless an enemy or an explosion
shares the player's cell when `checkCollisions` runs; in that case one life is lost and
the player is put at (1,1) if a life is left. -/
theorem update_noKeys_player_bombs (fuel : Nat) (rng : Rng) (g g1 : Game) (r : Rng)
    (hr : g.gameRunning = true) (h : update fuel noKeys rng g = some (g1, r)) :
    g1.bombs = (g.bombs.filter (fun b => decide (1 < b.timer))).map tickBomb ∧
      g1.bombs.length ≤ g.bombs.length ∧
      (playerIsHit (beforeCollisions noKeys rng g) = false →
        g1.player.x = g.player.x ∧ g1.player.y = g.player.y ∧ g1.lives = g.lives) ∧
      (playerIsHit (beforeCollisions noKeys rng g) = true →
        g1.lives = g.lives - 1 ∧
          (0 < g.lives - 1 → g1.player.x = 1 ∧ g1.player.y = 1) ∧
          (g.lives - 1 ≤ 0 → g1.player.x = g.player.x ∧ g1.player.y = g.player.y)) := by
  obtain ⟨r0, hu⟩ := update_running fuel noKeys rng g hr
  rw [hu] at h
  obtain ⟨hp, hb, hl⟩ := beforeCollisions_spec noKeys rng g
  rw [handleInput_noKeys] at hp hb
  obtain ⟨cb, c1, c2⟩ := checkCollisions_player (beforeCollisions noKeys rng g)
  rw [hp, hl] at c1 c2
  rw [hb] at cb
  have key : g1.player = (checkCollisions (beforeCollisions noKeys rng g)).player ∧
      g1.bombs = (checkCollisions (beforeCollisions noKeys rng g)).bombs ∧
      g1.lives = (checkCollisions (beforeCollisions noKeys rng g)).lives := by
    split at h
    · exact nextLevel_frame fuel r0 _ g1 r h
    · simp only [Option.some.injEq, Prod.mk.injEq] at h
      rw [← h.1]
      exact ⟨rfl, rfl, rfl⟩
  obtain ⟨k1, k2, k3⟩ := key
  rw [k1, k2, k3]
  refine ⟨cb, ?_, c1, c2⟩
  rw [cb, List.length_map]
  exact List.length_filter_le _ _

/-- Witness of `update_noKeys_player_bombs` at the constructed state. -/
theorem update_noKeys_player_bombs_witness :
    ∃ g1 r, initialState.gameRunning = true ∧
      update 1 noKeys halfRng initialState = some (g1, r) ∧
      g1.bombs = (initialState.bombs.filter (fun b => decide (1 < b.timer))).map tickBomb ∧
      g1.bombs.length ≤ initialState.bombs.length ∧
      (playerIsHit (beforeCollisions noKeys halfRng initialState) = false →
        g1.player.x = initialState.player.x ∧ g1.player.y = initialState.player.y ∧
          g1.lives = initialState.lives) ∧
      (playerIsHit (beforeCollisions noKeys halfRng initialState) = true →
        g1.lives = initialState.lives - 1 ∧
          (0 < initialState.lives - 1 → g1.player.x = 1 ∧ g1.player.y = 1) ∧
          (initialState.lives - 1 ≤ 0 →
            g1.player.x = initialState.player.x ∧ g1.player.y = initialState.player.y)) := by
  have hr : initialState.gameRunning = true := by decide!
  have hs : (update 1 noKeys halfRng initialState).isSome = true := by decide!
  cases h : update 1 noKeys halfRng initialState with
  | none =>
    rw [h] at hs
    exact absurd hs (by decide)
  | some p =>
    exact ⟨p.1, p.2, hr, rfl, update_noKeys_player_bombs 1 halfRng initialState p.1 p.2 hr h⟩

/-! ## Restart (C10) -/

/-- C10, counterexample: `restart` in the constructed (reachable) state returns a state
whose enemy collection holds four enemies, so it is not empty. -/
theorem restart_leaves_enemies :
    Reachable initialState ∧
      (restart 1 halfRng initialState).map (fun p => p.1.enemies.length) = some 4 := by
  refine ⟨initialState_reachable, ?_⟩
  decide!

/-- C10, amended: whenever the enemy-placement loop of `restart` finishes, the result
has score 0, three lives, level 1, `gameRunning` true, the player at (1,1) with
`bombCount` 1 and `bombRange` 2, no bombs, explosions or powerups, and exactly four
freshly placed enemies, each on an empty cell of the new map. -/
theorem restart_spec (fuel : Nat) (rng : Rng) (g g1 : Game) (r : Rng)
    (h : restart fuel rng g = some (g1, r)) :
    g1.score = 0 ∧ g1.lives = 3 ∧ g1.level = 1 ∧ g1.gameRunning = true ∧
      g1.player.x = 1 ∧ g1.player.y = 1 ∧ g1.player.bombCount = 1 ∧
      g1.player.bombRange = 2 ∧ g1.bombs = [] ∧ g1.explosions = [] ∧ g1.powerups = [] ∧
      g1.enemies.length = 4 ∧ ∀ e ∈ g1.enemies, cellAt g1.map e.x e.y = some 0 := by
  obtain ⟨h1, h2, h3⟩ := initializeLevel_spec fuel rng _ g1 r h
  refine ⟨?_, ?_, ?_, ?_, ?_, ?_, ?_, ?_, ?_, ?_, ?_, h2, h3⟩ <;> rw [h1]

/-- Witness of `restart_spec` at the constructed state. -/
theorem restart_spec_witness :
    ∃ g1 r, restart 1 halfRng initialState = some (g1, r) ∧
      g1.score = 0 ∧ g1.lives = 3 ∧ g1.level = 1 ∧ g1.gameRunning = true ∧
      g1.player.x = 1 ∧ g1.player.y = 1 ∧ g1.player.bombCount = 1 ∧
      g1.player.bombRange = 2 ∧ g1.bombs = [] ∧ g1.explosions = [] ∧ g1.powerups = [] ∧
      g1.enemies.length = 4 ∧ ∀ e ∈ g1.enemies, cellAt g1.map e.x e.y = some 0 := by
  have hs : (restart 1 halfRng initialState).isSome = true := by decide!
  cases h : restart 1 halfRng initialState with
  | none =>
    rw [h] at hs
    exact absurd hs (by decide)
  | some p => exact ⟨p.1, p.2, rfl, restart_spec 1 halfRng initialState p.1 p.2 h⟩

/-! ## The player is hit (C11) -/

theorem playerIsHit_iff (g : Game) :
    playerIsHit g = true ↔
      ((∃ en ∈ g.enemies, en.x = g.player.x ∧ en.y = g.player.y) ∨
        ∃ ex ∈ g.explosions, ex.x = g.player.x ∧ ex.y = g.player.y) := by
  unfold playerIsHit
  simp [List.any_eq_true]

/-- C11: when an enemy, or failing that an explosion, shares the player's cell,
`checkCollisions` is exactly one `playerHit`: one life is lost, and the enemies, the
powerups, the score, `bombCount` and `bombRange` keep their values. -/
theorem checkCollisions_hit_once (g : Game)
    (h : (∃ en ∈ g.enemies, en.x = g.player.x ∧ en.y = g.player.y) ∨
      ∃ ex ∈ g.explosions, ex.x = g.player.x ∧ ex.y = g.player.y) :
    checkCollisions g = playerHit g ∧
      (checkCollisions g).lives = g.lives - 1 ∧
      (checkCollisions g).enemies = g.enemies ∧
      (checkCollisions g).powerups = g.powerups ∧
      (checkCollisions g).score = g.score ∧
      (checkCollisions g).player.bombCount = g.player.bombCount ∧
      (checkCollisions g).player.bombRange = g.player.bombRange := by
  have hh : playerIsHit g = true := (playerIsHit_iff g).2 h
  rw [checkCollisions_hit g hh]
  refine ⟨rfl, ?_, ?_, ?_, ?_, ?_, ?_⟩ <;>
    (unfold playerHit gameOver; simp only; split <;> rfl)

/-- Witness of `checkCollisions_hit_once`: two enemies, an explosion and a powerup on the
player's cell, and a third enemy inside another explosion. -/
theorem checkCollisions_hit_once_witness :
    ((∃ en ∈ crowdedState.enemies,
        en.x = crowdedState.player.x ∧ en.y = crowdedState.player.y) ∨
      ∃ ex ∈ crowdedState.explosions,
        ex.x = crowdedState.player.x ∧ ex.y = crowdedState.player.y) ∧
    checkCollisions crowdedState = playerHit crowdedState ∧
      (checkCollisions crowdedState).lives = crowdedState.lives - 1 ∧
      (checkCollisions crowdedState).enemies = crowdedState.enemies ∧
      (checkCollisions crowdedState).powerups = crowdedState.powerups ∧
      (checkCollisions crowdedState).score = crowdedState.score ∧
      (checkCollisions crowdedState).player.bombCount = crowdedState.player.bombCount ∧
      (checkCollisions crowdedState).player.bombRange = crowdedState.player.bombRange :=
  have h : (∃ en ∈ crowdedState.enemies,
        en.x = crowdedState.player.x ∧ en.y = crowdedState.player.y) ∨
      ∃ ex ∈ crowdedState.explosions,
        ex.x = crowdedState.player.x ∧ ex.y = crowdedState.player.y :=
    Or.inl ⟨⟨1, 1, 0, 0⟩, by decide!, by decide!, by decide!⟩
  ⟨h, checkCollisions_hit_once crowdedState h⟩

/-! ## Placing a bomb (C14) -/

theorem update_bombs (fuel : Nat) (keys : Keys) (rng : Rng) (g g1 : Game) (r : Rng)
    (h : update fuel keys rng g = some (g1, r)) :
    g1.bombs = if g.gameRunning = true then
      (g.bombs.filter (fun b => decide (1 < b.timer))).map tickBomb else g.bombs := by
  cases hr : g.gameRunning with
  | false =>
    unfold update at h
    simp only [hr, Bool.not_false, if_true, Option.some.injEq, Prod.mk.injEq] at h
    rw [← h.1]
    simp
  | true =>
    obtain ⟨r0, hu⟩ := update_running fuel keys rng g hr
    rw [hu] at h
    obtain ⟨_, hb, _⟩ := beforeCollisions_spec keys rng g
    have hin : (handleInput keys g).bombs = g.bombs := by
      rcases handleInput_cases keys g with e | ⟨x, y, _, e⟩ <;> rw [e]
    rw [hin] at hb
    have hc := (checkCollisions_player (beforeCollisions keys rng g)).1
    simp only [if_true]
    rw [← hb, ← hc]
    split at h
    · exact (nextLevel_frame fuel r0 _ g1 r h).2.1
    · simp only [Option.some.injEq, Prod.mk.injEq] at h
      rw [← h.1]

/-- C14: `dropBomb` changes nothing when the live bombs reach `bombCount` or a bomb is
already on the player's cell; otherwise it appends one bomb at the player's position
with timer 120 and the player's current `bombRange`, and changes nothing else.  Later
operations keep the stored range: `checkCollisions`, where `bombRange` grows, leaves the
bombs as they are, and the bombs after an `update` tick are earlier bombs with only the
timer changed. -/
theorem dropBomb_spec (g : Game) :
    (((g.bombs.length : Int) ≥ g.player.bombCount ∨
        ∃ b ∈ g.bombs, b.x = g.player.x ∧ b.y = g.player.y) → dropBomb g = g) ∧
      (¬ ((g.bombs.length : Int) ≥ g.player.bombCount ∨
          ∃ b ∈ g.bombs, b.x = g.player.x ∧ b.y = g.player.y) →
        dropBomb g =
          { g with bombs := g.bombs ++ [⟨g.player.x, g.player.y, 120, g.player.bombRange⟩] }) ∧
      (checkCollisions g).bombs = g.bombs ∧
      (∀ fuel keys rng g1 r, update fuel keys rng g = some (g1, r) →
        ∀ b1 ∈ g1.bombs, ∃ b ∈ g.bombs,
          b1.x = b.x ∧ b1.y = b.y ∧ b1.range = b.range ∧
            (b1.timer = b.timer ∨ b1.timer = b.timer - 1)) := by
  have hany : g.bombs.any (fun b => decide (b.x = g.player.x ∧ b.y = g.player.y)) = true ↔
      ∃ b ∈ g.bombs, b.x = g.player.x ∧ b.y = g.player.y := by
    simp [List.any_eq_true]
  refine ⟨?_, ?_, (checkCollisions_player g).1, ?_⟩
  · intro h
    unfold dropBomb
    split
    · rfl
    · rename_i h1
      rw [if_pos (hany.2 (h.resolve_left h1))]
  · intro h
    push_neg at h
    unfold dropBomb
    rw [if_neg (by omega), if_neg (by
      rw [hany]
      push_neg
      exact h.2)]
  · intro fuel keys rng g1 r hu b1 hb1
    rw [update_bombs fuel keys rng g g1 r hu] at hb1
    split at hb1
    · rw [List.mem_map] at hb1
      obtain ⟨b, hb, rfl⟩ := hb1
      exact ⟨b, (List.mem_filter.1 hb).1, rfl, rfl, rfl, Or.inr rfl⟩
    · exact ⟨b1, hb1, rfl, rfl, rfl, Or.inl rfl⟩

/-! ## The next level (C15, C17) -/

theorem nextLevel_fields (fuel : Nat) (rng : Rng) (g g1 : Game) (r : Rng)
    (h : nextLevel fuel rng g = some (g1, r)) :
    g1.level = g.level + 1 ∧ g1.score = g.score + 500 ∧ g1.player = g.player ∧
      g1.lives = g.lives ∧ g1.bombs = g.bombs ∧ g1.explosions = g.explosions ∧
      g1.powerups = g.powerups ∧ g1.gameRunning = g.gameRunning ∧
      g1.map = (generateMap rng).1 := by
  have h1 := (initializeLevel_spec fuel rng _ g1 r h).1
  refine ⟨?_, ?_, ?_, ?_, ?_, ?_, ?_, ?_, ?_⟩ <;> rw [h1]

/-- C15, amended: when the enemy-placement loop finishes, `nextLevel` adds 1 to the level
and 500 to the score and rebuilds the map and the enemies: the new map is the generated
one, there are `3 + (level + 1)` new enemies, each on an empty cell of the new map, and
the result does not depend on the earlier enemies or the earlier map.  The player, the
lives and the bomb, explosion and powerup collections (and the running flag) are as
before. -/
theorem nextLevel_spec (fuel : Nat) (rng : Rng) (g g1 : Game) (r : Rng)
    (h : nextLevel fuel rng g = some (g1, r)) :
    g1.level = g.level + 1 ∧ g1.score = g.score + 500 ∧ g1.player = g.player ∧
      g1.lives = g.lives ∧ g1.bombs = g.bombs ∧ g1.explosions = g.explosions ∧
      g1.powerups = g.powerups ∧ g1.gameRunning = g.gameRunning ∧
      g1.map = (generateMap rng).1 ∧
      g1.enemies.length = (3 + (g.level + 1)).toNat ∧
      (∀ e ∈ g1.enemies, cellAt g1.map e.x e.y = some 0) ∧
      ∀ es m, nextLevel fuel rng { g with enemies := es, map := m } = some (g1, r) := by
  obtain ⟨h1, h2, h3⟩ := initializeLevel_spec fuel rng _ g1 r h
  obtain ⟨f1, f2, f3, f4, f5, f6, f7, f8, f9⟩ := nextLevel_fields fuel rng g g1 r h
  exact ⟨f1, f2, f3, f4, f5, f6, f7, f8, f9, h2, h3, fun _ _ => h⟩

/-- C17: when the placement loop finishes, `initializeLevel` leaves exactly `3 + level`
enemies, whatever enemies there were before (4 at level 1, 6 at level 3). -/
theorem initializeLevel_enemy_count (fuel : Nat) (rng : Rng) (g g1 : Game) (r : Rng)
    (hl : 0 ≤ 3 + g.level) (h : initializeLevel fuel rng g = some (g1, r)) :
    (g1.enemies.length : Int) = 3 + g.level ∧
      (g.level = 1 → g1.enemies.length = 4) ∧ (g.level = 3 → g1.enemies.length = 6) ∧
      ∀ es, initializeLevel fuel rng { g with enemies := es } = some (g1, r) := by
  have h2 := (initializeLevel_spec fuel rng g g1 r h).2.1
  refine ⟨by omega, by omega, by omega, ?_⟩
  intro es
  exact h

/-- Witness of `initializeLevel_enemy_count` at the constructed state, level 3. -/
theorem initializeLevel_enemy_count_witness :
    ∃ g1 r, (0 : Int) ≤ 3 + ({ initialState with level := 3 } : Game).level ∧
      initializeLevel 1 halfRng { initialState with level := 3 } = some (g1, r) ∧
      (g1.enemies.length : Int) = 3 + ({ initialState with level := 3 } : Game).level ∧
      (({ initialState with level := 3 } : Game).level = 1 → g1.enemies.length = 4) ∧
      (({ initialState with level := 3 } : Game).level = 3 → g1.enemies.length = 6) ∧
      ∀ es, initializeLevel 1 halfRng
        { ({ initialState with level := 3 } : Game) with enemies := es } = some (g1, r) := by
  have hs : (initializeLevel 1 halfRng { initialState with level := 3 }).isSome = true := by
    decide!
  cases h : initializeLevel 1 halfRng { initialState with level := 3 } with
  | none =>
    rw [h] at hs
    exact absurd hs (by decide)
  | some p =>
    exact ⟨p.1, p.2, by decide, rfl,
      initializeLevel_enemy_count 1 halfRng { initialState with level := 3 } p.1 p.2
        (by decide) h⟩

/-! ## Lives and the running flag (C20) -/

theorem beforeCollisions_running (keys : Keys) (rng : Rng) (g : Game) :
    (beforeCollisions keys rng g).gameRunning = g.gameRunning := by
  obtain ⟨_, _, hc⟩ := updateBombs_spec rng (handleInput keys g)
  obtain ⟨_, _, hr, _, _, _⟩ := hc
  obtain ⟨ex, he⟩ := updateExplosions_frame (updateBombs rng (handleInput keys g)).1
  have hin : (handleInput keys g).gameRunning = g.gameRunning := by
    rcases handleInput_cases keys g with e | ⟨x, y, _, e⟩ <;> rw [e]
  unfold beforeCollisions updateEnemies
  simp only
  rw [he]
  exact hr.trans hin

theorem livesInv_playerHit (g : Game) (h : LivesInv g) (hr : g.gameRunning = true) :
    LivesInv (playerHit g) := by
  obtain ⟨h1, h2, h3⟩ := h
  have hpos : 0 < g.lives := h3.1 hr
  by_cases hle : g.lives - 1 ≤ 0
  · have e : playerHit g = { g with lives := g.lives - 1, gameRunning := false } := by
      simp [playerHit, gameOver, hle]
    rw [e]
    show 0 ≤ g.lives - 1 ∧ g.lives - 1 ≤ 3 ∧ (false = true ↔ 0 < g.lives - 1)
    refine ⟨by omega, by omega, ?_⟩
    constructor
    · intro hf
      exact absurd hf (by decide)
    · intro hf
      omega
  · have e : playerHit g =
        { g with lives := g.lives - 1, player := { g.player with x := 1, y := 1 } } := by
      simp [playerHit, hle]
    rw [e]
    show 0 ≤ g.lives - 1 ∧ g.lives - 1 ≤ 3 ∧ (g.gameRunning = true ↔ 0 < g.lives - 1)
    refine ⟨by omega, by omega, ?_⟩
    constructor
    · intro _
      omega
    · intro _
      exact hr

theorem livesInv_checkCollisions (g : Game) (h : LivesInv g) (hr : g.gameRunning = true) :
    LivesInv (checkCollisions g) := by
  cases hh : playerIsHit g with
  | true =>
    rw [checkCollisions_hit g hh]
    exact livesInv_playerHit g h hr
  | false =>
    obtain ⟨en, bg, sc, pl, pw, he, _⟩ := checkCollisions_not_hit g hh
    rw [he]
    exact h

theorem livesInv_update (fuel : Nat) (keys : Keys) (rng : Rng) (g g1 : Game) (r : Rng)
    (h : LivesInv g) (hu : update fuel keys rng g = some (g1, r)) : LivesInv g1 := by
  cases hr : g.gameRunning with
  | false =>
    unfold update at hu
    simp only [hr, Bool.not_false, if_true, Option.some.injEq, Prod.mk.injEq] at hu
    rw [← hu.1]
    exact h
  | true =>
    obtain ⟨r0, he⟩ := update_running fuel keys rng g hr
    rw [he] at hu
    have hmid : LivesInv (beforeCollisions keys rng g) := by
      unfold LivesInv
      rw [(beforeCollisions_spec keys rng g).2.2, beforeCollisions_running keys rng g]
      exact h
    have hc := livesInv_checkCollisions _ hmid
      ((beforeCollisions_running keys rng g).trans hr)
    split at hu
    · obtain ⟨_, _, _, n4, _, _, _, n8, _⟩ := nextLevel_fields fuel r0 _ g1 r hu
      unfold LivesInv
      rw [n4, n8]
      exact hc
    · simp only [Option.some.injEq, Prod.mk.injEq] at hu
      rw [← hu.1]
      exact hc

theorem livesInv_of_fresh (fuel : Nat) (rng : Rng) (g g1 : Game) (r : Rng)
    (hl : g.lives = 3) (hr : g.gameRunning = true)
    (h : initializeLevel fuel rng g = some (g1, r)) : LivesInv g1 := by
  have h1 := (initializeLevel_spec fuel rng g g1 r h).1
  have e1 : g1.lives = g.lives := by rw [h1]
  have e2 : g1.gameRunning = g.gameRunning := by rw [h1]
  unfold LivesInv
  rw [e1, e2, hl, hr]
  decide

theorem livesInv_dropBomb (g : Game) (h : LivesInv g) : LivesInv (dropBomb g) := by
  unfold dropBomb
  split
  · exact h
  · split
    · exact h
    · exact h

theorem reachable_livesInv (g : Game) (h : Reachable g) : LivesInv g := by
  induction h with
  | construct fuel rng g r hc => exact livesInv_of_fresh fuel rng _ g r rfl rfl hc
  | update fuel keys rng g g1 r _ hu ih => exact livesInv_update fuel keys rng g g1 r ih hu
  | dropBomb g _ ih => exact livesInv_dropBomb g ih
  | restart fuel rng g g1 r _ hr _ => exact livesInv_of_fresh fuel rng _ g1 r rfl rfl hr

/-- C20: in every reachable state the lives are between 0 and 3 and `gameRunning` holds
exactly when a life is left; with no life left `update` returns the state unchanged
(and draws no roll), so the lives never become negative. -/
theorem lives_between_zero_and_three (g : Game) (h : Reachable g) :
    0 ≤ g.lives ∧ g.lives ≤ 3 ∧ (g.gameRunning = true ↔ 0 < g.lives) ∧
      (g.lives = 0 → ∀ fuel keys rng, update fuel keys rng g = some (g, rng)) := by
  obtain ⟨h1, h2, h3⟩ := reachable_livesInv g h
  refine ⟨h1, h2, h3, ?_⟩
  intro h0 fuel keys rng
  have hr : g.gameRunning = false := by
    cases hg : g.gameRunning with
    | false => rfl
    | true =>
      have := h3.1 hg
      omega
  unfold update
  simp [hr]

/-! ## Enemies in explosions (C12) -/

theorem drop_eq_cons_of_getElem? {α : Type} (l : List α) (i : Nat) (a : α)
    (h : l[i]? = some a) : l.drop i = a :: l.drop (i + 1) := by
  obtain ⟨hlt, rfl⟩ := List.getElem?_eq_some.1 h
  exact List.drop_eq_getElem_cons hlt

theorem game_ext (a b : Game) (h1 : a.score = b.score) (h2 : a.lives = b.lives)
    (h3 : a.level = b.level) (h4 : a.gameRunning = b.gameRunning)
    (h5 : a.currentBgIndex = b.currentBgIndex) (h6 : a.player = b.player)
    (h7 : a.bombs = b.bombs) (h8 : a.explosions = b.explosions) (h9 : a.enemies = b.enemies)
    (h10 : a.powerups = b.powerups) (h11 : a.map = b.map) : a = b := by
  cases a
  cases b
  simp only [Game.mk.injEq]
  exact ⟨h1, h2, h3, h4, h5, h6, h7, h8, h9, h10, h11⟩

theorem player_ext (a b : Player) (h1 : a.x = b.x) (h2 : a.y = b.y)
    (h3 : a.bombCount = b.bombCount) (h4 : a.bombRange = b.bombRange) : a = b := by
  cases a
  cases b
  simp only [Player.mk.injEq]
  exact ⟨h1, h2, h3, h4⟩

theorem take_eraseIdx_self {α : Type} (l : List α) (i : Nat) (h : i ≤ l.length) :
    (l.eraseIdx i).take i = l.take i := by
  rw [List.eraseIdx_eq_take_drop_succ, take_take_append _ _ _ h]

theorem drop_eraseIdx_self {α : Type} (l : List α) (i : Nat) (h : i ≤ l.length) :
    (l.eraseIdx i).drop i = l.drop (i + 1) := by
  rw [List.eraseIdx_eq_take_drop_succ, drop_take_append _ _ _ h]

theorem length_eraseIdx_ge {α : Type} (l : List α) (i : Nat) (h : i < l.length) :
    i ≤ (l.eraseIdx i).length := by
  rw [List.eraseIdx_eq_take_drop_succ, List.length_append, List.length_take,
    List.length_drop]
  omega

theorem filter_take_succ_pos {α : Type} (p : α → Bool) (l : List α) (i : Nat) (a : α)
    (h : l[i]? = some a) (hp : p a = true) :
    (l.take (i + 1)).filter p = (l.take i).filter p ++ [a] := by
  rw [take_succ_of_getElem? l i a h, List.filter_append]
  simp [hp]

theorem filter_take_succ_neg {α : Type} (p : α → Bool) (l : List α) (i : Nat) (a : α)
    (h : l[i]? = some a) (hp : p a = false) :
    (l.take (i + 1)).filter p = (l.take i).filter p := by
  rw [take_succ_of_getElem? l i a h, List.filter_append]
  simp [hp]

theorem enemyExplosionLoop_spec :
    ∀ (i : Nat) (g : Game), i ≤ g.enemies.length →
      enemyExplosionLoop i g =
        { g with
          enemies := (g.enemies.take i).filter (fun en => !inExplosion g.explosions en) ++
            g.enemies.drop i,
          score := g.score +
            100 * (((g.enemies.take i).filter (inExplosion g.explosions)).length : Int),
          currentBgIndex :=
            nextBgIndex^[((g.enemies.take i).filter (inExplosion g.explosions)).length]
              g.currentBgIndex } := by
  intro i
  induction i with
  | zero =>
    intro g _
    simp [enemyExplosionLoop]
  | succ i ih =>
    intro g hi
    have hlt : i < g.enemies.length := hi
    have hle : i ≤ g.enemies.length := Nat.le_of_lt hlt
    obtain ⟨en, hget⟩ : ∃ en, g.enemies[i]? = some en := ⟨_, List.getElem?_eq_getElem hlt⟩
    have hdrop := drop_eq_cons_of_getElem? g.enemies i en hget
    unfold enemyExplosionLoop
    simp only [hget]
    by_cases hh : inExplosion g.explosions en = true
    · have hh1 : g.explosions.any (fun ex => decide (en.x = ex.x ∧ en.y = ex.y)) = true := hh
      rw [if_pos hh1, ih _ (length_eraseIdx_ge g.enemies i hlt)]
      have hcount := filter_take_succ_pos (inExplosion g.explosions) g.enemies i en hget hh
      have hkeep := filter_take_succ_neg (fun en => !inExplosion g.explosions en)
        g.enemies i en hget (by simp [hh])
      refine game_ext _ _ ?_ rfl rfl rfl ?_ rfl rfl rfl ?_ rfl rfl
      · dsimp only [changeBackgroundColor]
        rw [take_eraseIdx_self _ _ hle, hcount, List.length_append, List.length_singleton]
        push_cast
        ring
      · dsimp only [changeBackgroundColor]
        rw [take_eraseIdx_self _ _ hle, hcount, List.length_append, List.length_singleton,
          Function.iterate_succ_apply]
        rfl
      · dsimp only [changeBackgroundColor]
        rw [take_eraseIdx_self _ _ hle, drop_eraseIdx_self _ _ hle, hkeep]
    · have hh0 : inExplosion g.explosions en = false := by
        cases h : inExplosion g.explosions en with
        | false => rfl
        | true => exact absurd h hh
      have hh1 : ¬ g.explosions.any (fun ex => decide (en.x = ex.x ∧ en.y = ex.y)) = true := hh
      rw [if_neg hh1, ih g hle]
      have hcount := filter_take_succ_neg (inExplosion g.explosions) g.enemies i en hget hh0
      have hkeep := filter_take_succ_pos (fun en => !inExplosion g.explosions en)
        g.enemies i en hget (by simp [hh0])
      refine game_ext _ _ ?_ rfl rfl rfl ?_ rfl rfl rfl ?_ rfl rfl
      · dsimp only
        rw [hcount]
      · dsimp only
        rw [hcount]
      · dsimp only
        rw [hkeep, hdrop, List.append_assoc]
        rfl

/-! ## Powerups under the player (C13) -/

theorem applyPowerup_spec (p : Powerup) (pl : Player) :
    applyPowerup p pl =
      { pl with
        bombCount := pl.bombCount + (if hasType PowerupType.bomb p = true then 1 else 0),
        bombRange := pl.bombRange + (if hasType PowerupType.range p = true then 1 else 0) } := by
  unfold applyPowerup hasType
  cases hp : p.type <;> simp

theorem length_filter_hasType_append (t : PowerupType) (l : List Powerup) (p : Powerup) :
    (((l ++ [p]).filter (hasType t)).length : Int) =
      ((l.filter (hasType t)).length : Int) + (if hasType t p = true then 1 else 0) := by
  rw [List.filter_append, List.length_append]
  by_cases h : hasType t p = true
  · simp [h]
  · simp [h]

theorem powerupLoop_spec :
    ∀ (i : Nat) (g : Game), i ≤ g.powerups.length →
      powerupLoop i g =
        { g with
          powerups := (g.powerups.take i).filter (fun p => !onPlayerCell g.player p) ++
            g.powerups.drop i,
          player :=
            { g.player with
              bombCount := g.player.bombCount +
                ((((g.powerups.take i).filter (onPlayerCell g.player)).filter
                  (hasType PowerupType.bomb)).length : Int),
              bombRange := g.player.bombRange +
                ((((g.powerups.take i).filter (onPlayerCell g.player)).filter
                  (hasType PowerupType.range)).length : Int) },
          score := g.score +
            50 * (((g.powerups.take i).filter (onPlayerCell g.player)).length : Int) } := by
  intro i
  induction i with
  | zero =>
    intro g _
    simp [powerupLoop]
  | succ i ih =>
    intro g hi
    have hlt : i < g.powerups.length := hi
    have hle : i ≤ g.powerups.length := Nat.le_of_lt hlt
    obtain ⟨p, hget⟩ : ∃ p, g.powerups[i]? = some p := ⟨_, List.getElem?_eq_getElem hlt⟩
    have hdrop := drop_eq_cons_of_getElem? g.powerups i p hget
    unfold powerupLoop
    simp only [hget]
    by_cases hh : onPlayerCell g.player p = true
    · have hh1 : p.x = g.player.x ∧ p.y = g.player.y := by
        simpa [onPlayerCell] using hh
      have hsame : onPlayerCell (applyPowerup p g.player) = onPlayerCell g.player := by
        funext q
        rw [applyPowerup_spec]
        rfl
      rw [if_pos hh1, ih _ (length_eraseIdx_ge g.powerups i hlt)]
      have hcount := filter_take_succ_pos (onPlayerCell g.player) g.powerups i p hget hh
      have hkeep := filter_take_succ_neg (fun p => !onPlayerCell g.player p)
        g.powerups i p hget (by simp [hh])
      refine game_ext _ _ ?_ rfl rfl rfl rfl ?_ rfl rfl rfl ?_ rfl
      · dsimp only
        rw [hsame, take_eraseIdx_self _ _ hle, hcount, List.length_append,
          List.length_singleton]
        push_cast
        ring
      · dsimp only
        rw [hsame, take_eraseIdx_self _ _ hle, hcount,
          length_filter_hasType_append, length_filter_hasType_append, applyPowerup_spec]
        refine player_ext _ _ rfl rfl ?_ ?_
        · dsimp only
          ring
        · dsimp only
          ring
      · dsimp only
        rw [hsame, take_eraseIdx_self _ _ hle, drop_eraseIdx_self _ _ hle, hkeep]
    · have hh0 : onPlayerCell g.player p = false := by
        cases h : onPlayerCell g.player p with
        | false => rfl
        | true => exact absurd h hh
      have hh1 : ¬ (p.x = g.player.x ∧ p.y = g.player.y) := by
        simpa [onPlayerCell] using hh0
      rw [if_neg hh1, ih g hle]
      have hcount := filter_take_succ_neg (onPlayerCell g.player) g.powerups i p hget hh0
      have hkeep := filter_take_succ_pos (fun p => !onPlayerCell g.player p)
        g.powerups i p hget (by simp [hh0])
      refine game_ext _ _ ?_ rfl rfl rfl rfl ?_ rfl rfl rfl ?_ rfl
      · dsimp only
        rw [hcount]
      · dsimp only
        rw [hcount]
      · dsimp only
        rw [hkeep, hdrop, List.append_assoc]
        rfl

/-! ## The collision categories after the hit tests (C12, C13) -/

theorem checkCollisions_exact (g : Game) (h : playerIsHit g = false) :
    checkCollisions g =
      { g with
        enemies := g.enemies.filter (fun en => !inExplosion g.explosions en),
        currentBgIndex :=
          nextBgIndex^[(g.enemies.filter (inExplosion g.explosions)).length] g.currentBgIndex,
        powerups := g.powerups.filter (fun p => !onPlayerCell g.player p),
        player :=
          { g.player with
            bombCount := g.player.bombCount +
              (((g.powerups.filter (onPlayerCell g.player)).filter
                (hasType PowerupType.bomb)).length : Int),
            bombRange := g.player.bombRange +
              (((g.powerups.filter (onPlayerCell g.player)).filter
                (hasType PowerupType.range)).length : Int) },
        score := g.score +
          100 * ((g.enemies.filter (inExplosion g.explosions)).length : Int) +
          50 * ((g.powerups.filter (onPlayerCell g.player)).length : Int) } := by
  unfold playerIsHit at h
  rw [Bool.or_eq_false_iff] at h
  unfold checkCollisions
  simp only [h.1, h.2, Bool.false_eq_true, if_false]
  rw [enemyExplosionLoop_spec _ g (Nat.le_refl _)]
  rw [powerupLoop_spec _ _ (Nat.le_refl _)]
  simp only [List.take_length, List.drop_length, List.append_nil]

theorem not_playerIsHit_iff (g : Game) :
    playerIsHit g = false ↔
      (¬ ∃ en ∈ g.enemies, en.x = g.player.x ∧ en.y = g.player.y) ∧
        ¬ ∃ ex ∈ g.explosions, ex.x = g.player.x ∧ ex.y = g.player.y := by
  rw [← not_or, ← playerIsHit_iff]
  cases playerIsHit g <;> simp

theorem inExplosion_iff (exs : List Explosion) (en : Enemy) :
    inExplosion exs en = true ↔ ∃ ex ∈ exs, en.x = ex.x ∧ en.y = ex.y := by
  unfold inExplosion
  simp [List.any_eq_true]

/-- C12: when no enemy and no explosion shares the player's cell, the enemies after
`checkCollisions` are the earlier enemies, in order, without those that share a cell with
an explosion, and the score grows by 100 per removed enemy (and 50 per picked-up
powerup). -/
theorem checkCollisions_enemies (g : Game)
    (h1 : ¬ ∃ en ∈ g.enemies, en.x = g.player.x ∧ en.y = g.player.y)
    (h2 : ¬ ∃ ex ∈ g.explosions, ex.x = g.player.x ∧ ex.y = g.player.y) :
    (checkCollisions g).enemies =
        g.enemies.filter (fun en => !inExplosion g.explosions en) ∧
      (∀ en, inExplosion g.explosions en = true ↔
        ∃ ex ∈ g.explosions, en.x = ex.x ∧ en.y = ex.y) ∧
      (g.enemies.filter (inExplosion g.explosions)).length +
          (checkCollisions g).enemies.length = g.enemies.length ∧
      (checkCollisions g).score =
        g.score + 100 * ((g.enemies.filter (inExplosion g.explosions)).length : Int) +
          50 * ((g.powerups.filter (onPlayerCell g.player)).length : Int) := by
  have hh : playerIsHit g = false := (not_playerIsHit_iff g).2 ⟨h1, h2⟩
  rw [checkCollisions_exact g hh]
  refine ⟨rfl, inExplosion_iff g.explosions, ?_, rfl⟩
  dsimp only
  have := List.length_eq_length_filter_add (l := g.enemies) (inExplosion g.explosions)
  omega

/-- Witness of `checkCollisions_enemies`: of four enemies the first, third and fourth
stand in explosions. -/
theorem checkCollisions_enemies_witness :
    (¬ ∃ en ∈ pickupState.enemies,
        en.x = pickupState.player.x ∧ en.y = pickupState.player.y) ∧
      (¬ ∃ ex ∈ pickupState.explosions,
        ex.x = pickupState.player.x ∧ ex.y = pickupState.player.y) ∧
      (checkCollisions pickupState).enemies =
        pickupState.enemies.filter (fun en => !inExplosion pickupState.explosions en) ∧
      (∀ en, inExplosion pickupState.explosions en = true ↔
        ∃ ex ∈ pickupState.explosions, en.x = ex.x ∧ en.y = ex.y) ∧
      (pickupState.enemies.filter (inExplosion pickupState.explosions)).length +
          (checkCollisions pickupState).enemies.length = pickupState.enemies.length ∧
      (checkCollisions pickupState).score =
        pickupState.score +
          100 * ((pickupState.enemies.filter (inExplosion pickupState.explosions)).length :
            Int) +
          50 * ((pickupState.powerups.filter (onPlayerCell pickupState.player)).length :
            Int) :=
  have hh : playerIsHit pickupState = false := by decide!
  ⟨((not_playerIsHit_iff pickupState).1 hh).1, ((not_playerIsHit_iff pickupState).1 hh).2,
    checkCollisions_enemies pickupState ((not_playerIsHit_iff pickupState).1 hh).1
      ((not_playerIsHit_iff pickupState).1 hh).2⟩

/-- C13: when no enemy and no explosion shares the player's cell, `checkCollisions`
removes exactly the powerups on the player's cell and keeps the others in order;
`bombCount` grows by the number of removed powerups of type 'bomb', `bombRange` by the
number of type 'range', the score by 50 per removed powerup (and 100 per removed
enemy), and the player stays where it is. -/
theorem checkCollisions_powerups (g : Game)
    (h1 : ¬ ∃ en ∈ g.enemies, en.x = g.player.x ∧ en.y = g.player.y)
    (h2 : ¬ ∃ ex ∈ g.explosions, ex.x = g.player.x ∧ ex.y = g.player.y) :
    (checkCollisions g).powerups =
        g.powerups.filter (fun p => !onPlayerCell g.player p) ∧
      (∀ p, onPlayerCell g.player p = true ↔ (p.x = g.player.x ∧ p.y = g.player.y)) ∧
      (checkCollisions g).player.bombCount =
        g.player.bombCount +
          (((g.powerups.filter (onPlayerCell g.player)).filter
            (fun p => decide (p.type = PowerupType.bomb))).length : Int) ∧
      (checkCollisions g).player.bombRange =
        g.player.bombRange +
          (((g.powerups.filter (onPlayerCell g.player)).filter
            (fun p => decide (p.type = PowerupType.range))).length : Int) ∧
      (checkCollisions g).score =
        g.score + 100 * ((g.enemies.filter (inExplosion g.explosions)).length : Int) +
          50 * ((g.powerups.filter (onPlayerCell g.player)).length : Int) ∧
      (checkCollisions g).player.x = g.player.x ∧ (checkCollisions g).player.y = g.player.y := by
  have hh : playerIsHit g = false := (not_playerIsHit_iff g).2 ⟨h1, h2⟩
  rw [checkCollisions_exact g hh]
  refine ⟨rfl, ?_, rfl, rfl, rfl, rfl, rfl⟩
  intro p
  simp [onPlayerCell]

/-- Witness of `checkCollisions_powerups`: of four powerups the first, third and fourth
lie under the player. -/
theorem checkCollisions_powerups_witness :
    (¬ ∃ en ∈ pickupState.enemies,
        en.x = pickupState.player.x ∧ en.y = pickupState.player.y) ∧
      (¬ ∃ ex ∈ pickupState.explosions,
        ex.x = pickupState.player.x ∧ ex.y = pickupState.player.y) ∧
      (checkCollisions pickupState).powerups =
        pickupState.powerups.filter (fun p => !onPlayerCell pickupState.player p) ∧
      (∀ p, onPlayerCell pickupState.player p = true ↔
        (p.x = pickupState.player.x ∧ p.y = pickupState.player.y)) ∧
      (checkCollisions pickupState).player.bombCount =
        pickupState.player.bombCount +
          (((pickupState.powerups.filter (onPlayerCell pickupState.player)).filter
            (fun p => decide (p.type = PowerupType.bomb))).length : Int) ∧
      (checkCollisions pickupState).player.bombRange =
        pickupState.player.bombRange +
          (((pickupState.powerups.filter (onPlayerCell pickupState.player)).filter
            (fun p => decide (p.type = PowerupType.range))).length : Int) ∧
      (checkCollisions pickupState).score =
        pickupState.score +
          100 * ((pickupState.enemies.filter (inExplosion pickupState.explosions)).length :
            Int) +
          50 * ((pickupState.powerups.filter (onPlayerCell pickupState.player)).length :
            Int) ∧
      (checkCollisions pickupState).player.x = pickupState.player.x ∧
      (checkCollisions pickupState).player.y = pickupState.player.y :=
  have hh : playerIsHit pickupState = false := by decide!
  ⟨((not_playerIsHit_iff pickupState).1 hh).1, ((not_playerIsHit_iff pickupState).1 hh).2,
    checkCollisions_powerups pickupState ((not_playerIsHit_iff pickupState).1 hh).1
      ((not_playerIsHit_iff pickupState).1 hh).2⟩

theorem checkCollisions_pickupState :
    (checkCollisions pickupState).enemies = [⟨12, 7, 2, 0⟩] ∧
      (checkCollisions pickupState).powerups =
        [⟨3, 3, PowerupType.range, PowerupColor.blue⟩] ∧
      (checkCollisions pickupState).score = pickupState.score + 450 ∧
      (checkCollisions pickupState).player.bombCount = 3 ∧
      (checkCollisions pickupState).player.bombRange = 3 := by
  decide!

/-! ## Bomb fuses (C18) -/

theorem explodeRay_withBombs (bomb : Bomb) (dir : Dir) (bs : List Bomb) :
    ∀ (n i : Nat) (rng : Rng) (g : Game),
      explodeRay bomb dir n i rng { g with bombs := bs } =
        ({ (explodeRay bomb dir n i rng g).1 with bombs := bs },
          (explodeRay bomb dir n i rng g).2) := by
  intro n
  induction n with
  | zero =>
    intro i rng g
    rfl
  | succ n ih =>
    intro i rng g
    unfold explodeRay
    dsimp only
    split
    · rfl
    · split
      · rfl
      · split
        · split <;> rfl
        · exact ih (i + 1) rng { g with explosions := g.explosions ++
            [⟨bomb.x + dir.x * (i : Int), bomb.y + dir.y * (i : Int), 30⟩] }

theorem explodeRays_withBombs (bomb : Bomb) (bs : List Bomb) :
    ∀ (dirs : List Dir) (rng : Rng) (g : Game),
      explodeRays bomb dirs rng { g with bombs := bs } =
        ({ (explodeRays bomb dirs rng g).1 with bombs := bs },
          (explodeRays bomb dirs rng g).2) := by
  intro dirs
  induction dirs with
  | nil =>
    intro rng g
    rfl
  | cons d dirs ih =>
    intro rng g
    unfold explodeRays
    dsimp only
    rw [explodeRay_withBombs]
    exact ih (explodeRay bomb d bomb.range.toNat 1 rng g).2
      (explodeRay bomb d bomb.range.toNat 1 rng g).1

theorem explodeBomb_withBombs (bomb : Bomb) (bs : List Bomb) (rng : Rng) (g : Game) :
    explodeBomb bomb rng { g with bombs := bs } =
      ({ (explodeBomb bomb rng g).1 with bombs := bs }, (explodeBomb bomb rng g).2) := by
  unfold explodeBomb
  exact explodeRays_withBombs bomb bs directions rng
    { g with explosions := g.explosions ++ [⟨bomb.x, bomb.y, 30⟩] }

theorem detonateAll_withBombs (bs : List Bomb) :
    ∀ (l : List Bomb) (rng : Rng) (g : Game),
      detonateAll l rng { g with bombs := bs } =
        ({ (detonateAll l rng g).1 with bombs := bs }, (detonateAll l rng g).2) := by
  intro l
  induction l with
  | nil =>
    intro rng g
    rfl
  | cons b l ih =>
    intro rng g
    unfold detonateAll
    dsimp only
    rw [explodeBomb_withBombs]
    exact ih (explodeBomb b rng g).2 (explodeBomb b rng g).1

theorem updateBombsLoop_exact :
    ∀ (i : Nat) (rng : Rng) (g : Game), i ≤ g.bombs.length →
      updateBombsLoop i rng g =
        ({ (detonateAll (expiringBombs (g.bombs.take i)) rng g).1 with
            bombs := stepBombs (g.bombs.take i) ++ g.bombs.drop i },
          (detonateAll (expiringBombs (g.bombs.take i)) rng g).2) := by
  intro i
  induction i with
  | zero =>
    intro rng g _
    simp [updateBombsLoop, detonateAll, expiringBombs, stepBombs]
  | succ i ih =>
    intro rng g hi
    have hlt : i < g.bombs.length := hi
    have hle : i ≤ g.bombs.length := Nat.le_of_lt hlt
    obtain ⟨b, hget⟩ : ∃ b, g.bombs[i]? = some b := ⟨_, List.getElem?_eq_getElem hlt⟩
    have hdrop := drop_eq_cons_of_getElem? g.bombs i b hget
    unfold updateBombsLoop
    simp only [hget]
    by_cases ht : (tickBomb b).timer ≤ 0
    · have hb1 : b.timer ≤ 1 := by
        unfold tickBomb at ht
        simp only at ht
        omega
      rw [if_pos ht, explodeBomb_withBombs]
      dsimp only
      rw [eraseIdx_set_self]
      have hlen : i ≤ (({ (explodeBomb (tickBomb b) rng g).1 with
          bombs := g.bombs.eraseIdx i } : Game)).bombs.length :=
        length_eraseIdx_ge g.bombs i hlt
      rw [ih _ _ hlen]
      dsimp only
      rw [take_eraseIdx_self _ _ hle, drop_eraseIdx_self _ _ hle, detonateAll_withBombs]
      have hexp : expiringBombs (g.bombs.take (i + 1)) =
          tickBomb b :: expiringBombs (g.bombs.take i) := by
        unfold expiringBombs
        rw [filter_take_succ_pos _ g.bombs i b hget (by simpa using hb1)]
        simp
      have hstep : stepBombs (g.bombs.take (i + 1)) = stepBombs (g.bombs.take i) := by
        unfold stepBombs
        rw [filter_take_succ_neg _ g.bombs i b hget (by simp; omega)]
      rw [hexp, hstep]
      rfl
    · have hb1 : 1 < b.timer := by
        unfold tickBomb at ht
        simp only at ht
        omega
      rw [if_neg ht]
      have hlen : i ≤ (({ g with bombs := g.bombs.set i (tickBomb b) } : Game)).bombs.length := by
        show i ≤ (g.bombs.set i (tickBomb b)).length
        rw [List.length_set]
        exact hle
      rw [ih _ _ hlen]
      dsimp only
      rw [set_eq_take_cons_drop _ _ _ hlt, take_take_append _ _ _ hle,
        drop_take_append _ _ _ hle, detonateAll_withBombs]
      have hexp : expiringBombs (g.bombs.take (i + 1)) = expiringBombs (g.bombs.take i) := by
        unfold expiringBombs
        rw [filter_take_succ_neg _ g.bombs i b hget (by simp; omega)]
      have hstep : stepBombs (g.bombs.take (i + 1)) =
          stepBombs (g.bombs.take i) ++ [tickBomb b] := by
        unfold stepBombs
        rw [filter_take_succ_pos _ g.bombs i b hget (by simpa using hb1)]
        simp
      rw [hexp, hstep, List.append_assoc]
      rfl

theorem updateBombs_exact (rng : Rng) (g : Game) :
    updateBombs rng g =
      ({ (detonateAll (expiringBombs g.bombs) rng g).1 with bombs := stepBombs g.bombs },
        (detonateAll (expiringBombs g.bombs) rng g).2) := by
  unfold updateBombs
  rw [updateBombsLoop_exact _ rng g (Nat.le_refl _)]
  simp only [List.take_length, List.drop_length, List.append_nil]

theorem stepBombs_filter_bombAt (x y : Int) (l : List Bomb) :
    (stepBombs l).filter (bombAt x y) = stepBombs (l.filter (bombAt x y)) := by
  have hpos : ∀ b, bombAt x y (tickBomb b) = bombAt x y b := fun _ => rfl
  unfold stepBombs
  rw [List.filter_map]
  have hcomp : (bombAt x y ∘ tickBomb) = bombAt x y := by
    funext b
    exact hpos b
  rw [hcomp, List.filter_filter, List.filter_filter]
  congr 2
  funext b
  exact Bool.and_comm _ _

theorem updateBombsTimes_bombs :
    ∀ (rngs : List Rng) (g : Game),
      (updateBombsTimes rngs g).bombs = stepBombs^[rngs.length] g.bombs := by
  intro rngs
  induction rngs with
  | nil =>
    intro g
    rfl
  | cons rng rest ih =>
    intro g
    unfold updateBombsTimes
    rw [ih, List.length_cons, Function.iterate_succ_apply, updateBombs_exact]

theorem iterate_stepBombs_filter (x y : Int) :
    ∀ (k : Nat) (l : List Bomb),
      (stepBombs^[k] l).filter (bombAt x y) = stepBombs^[k] (l.filter (bombAt x y)) := by
  intro k
  induction k with
  | zero =>
    intro l
    rfl
  | succ k ih =>
    intro l
    rw [Function.iterate_succ_apply, Function.iterate_succ_apply, ih, stepBombs_filter_bombAt]

theorem iterate_stepBombs_nil : ∀ k : Nat, stepBombs^[k] [] = [] := by
  intro k
  induction k with
  | zero => rfl
  | succ k ih =>
    rw [Function.iterate_succ_apply]
    exact ih

theorem iterate_stepBombs_single (x y r : Int) :
    ∀ (k : Nat) (t : Int), 1 ≤ t →
      stepBombs^[k] [⟨x, y, t, r⟩] = if (k : Int) < t then [⟨x, y, t - k, r⟩] else [] := by
  intro k
  induction k with
  | zero =>
    intro t ht
    have h0 : ((0 : Nat) : Int) < t := by omega
    rw [if_pos h0]
    simp
  | succ k ih =>
    intro t ht
    rw [Function.iterate_succ_apply]
    by_cases h1 : 1 < t
    · have hs : stepBombs [⟨x, y, t, r⟩] = [⟨x, y, t - 1, r⟩] := by
        simp [stepBombs, h1, tickBomb]
      rw [hs, ih (t - 1) (by omega)]
      by_cases h2 : (k : Int) < t - 1
      · have h3 : ((k + 1 : Nat) : Int) < t := by omega
        rw [if_pos h2, if_pos h3]
        have : t - 1 - (k : Int) = t - ((k + 1 : Nat) : Int) := by omega
        rw [this]
      · have h3 : ¬ ((k + 1 : Nat) : Int) < t := by omega
        rw [if_neg h2, if_neg h3]
    · have hs : stepBombs [⟨x, y, t, r⟩] = [] := by
        simp [stepBombs, h1]
      have h3 : ¬ ((k + 1 : Nat) : Int) < t := by omega
      rw [hs, iterate_stepBombs_nil, if_neg h3]

theorem dropBomb_filter_bombAt (g : Game)
    (h : ¬ ((g.bombs.length : Int) ≥ g.player.bombCount ∨
      ∃ b ∈ g.bombs, b.x = g.player.x ∧ b.y = g.player.y)) :
    (dropBomb g).bombs.filter (bombAt g.player.x g.player.y) =
      [⟨g.player.x, g.player.y, 120, g.player.bombRange⟩] := by
  push_neg at h
  have hany : ¬ g.bombs.any (fun b => decide (b.x = g.player.x ∧ b.y = g.player.y)) = true := by
    simp only [List.any_eq_true, decide_eq_true_eq, not_exists, not_and]
    intro b hb hx
    exact h.2 b hb hx
  have hnone : g.bombs.filter (bombAt g.player.x g.player.y) = [] := by
    rw [List.filter_eq_nil_iff]
    intro b hb
    simp only [bombAt, decide_eq_true_eq, not_and]
    exact h.2 b hb
  unfold dropBomb
  rw [if_neg (by omega), if_neg hany]
  show List.filter _ (g.bombs ++ [_]) = _
  rw [List.filter_append, hnone]
  simp [bombAt]

/-- C18: one call of `updateBombs` keeps exactly the bombs with a timer above 1, in
order, each with its timer reduced by 1, and is otherwise one `explodeBomb` per bomb
with a timer of 1 or less (taken last first, after the decrement).  So after a
successful `dropBomb` the bomb on the player's cell is there with timer `120 - k` after
`k < 120` calls, is among the bombs with timer 1 that the 120th call detonates, and is
gone after it. -/
theorem updateBombs_fuse :
    (∀ rng g,
      (updateBombs rng g).1.bombs =
          (g.bombs.filter (fun b => decide (1 < b.timer))).map tickBomb ∧
        updateBombs rng g =
          ({ (detonateAll (((g.bombs.filter (fun b => decide (b.timer ≤ 1))).map
                tickBomb).reverse) rng g).1 with
              bombs := (g.bombs.filter (fun b => decide (1 < b.timer))).map tickBomb },
            (detonateAll (((g.bombs.filter (fun b => decide (b.timer ≤ 1))).map
              tickBomb).reverse) rng g).2)) ∧
      ∀ (g : Game) (rngs : List Rng),
        ¬ ((g.bombs.length : Int) ≥ g.player.bombCount ∨
          ∃ b ∈ g.bombs, b.x = g.player.x ∧ b.y = g.player.y) →
        (rngs.length < 120 →
          (updateBombsTimes rngs (dropBomb g)).bombs.filter (bombAt g.player.x g.player.y) =
            [⟨g.player.x, g.player.y, 120 - (rngs.length : Int), g.player.bombRange⟩]) ∧
        (rngs.length = 119 →
          (⟨g.player.x, g.player.y, 0, g.player.bombRange⟩ : Bomb) ∈
            expiringBombs (updateBombsTimes rngs (dropBomb g)).bombs) ∧
        (120 ≤ rngs.length →
          (updateBombsTimes rngs (dropBomb g)).bombs.filter (bombAt g.player.x g.player.y) =
            []) := by
  constructor
  · intro rng g
    exact ⟨(updateBombs_spec rng g).1, updateBombs_exact rng g⟩
  · intro g rngs h
    have hf : (updateBombsTimes rngs (dropBomb g)).bombs.filter
        (bombAt g.player.x g.player.y) =
        if (rngs.length : Int) < 120 then
          [⟨g.player.x, g.player.y, 120 - (rngs.length : Int), g.player.bombRange⟩]
        else [] := by
      rw [updateBombsTimes_bombs, iterate_stepBombs_filter, dropBomb_filter_bombAt g h,
        iterate_stepBombs_single _ _ _ _ _ (by decide)]
    refine ⟨?_, ?_, ?_⟩
    · intro hk
      rw [hf, if_pos (by omega)]
    · intro hk
      have hmem : (⟨g.player.x, g.player.y, 1, g.player.bombRange⟩ : Bomb) ∈
          (updateBombsTimes rngs (dropBomb g)).bombs.filter
            (bombAt g.player.x g.player.y) := by
        rw [hf, if_pos (by omega), hk]
        simp
      have hin := (List.mem_filter.1 hmem).1
      unfold expiringBombs
      rw [List.mem_reverse, List.mem_map]
      exact ⟨_, List.mem_filter.2 ⟨hin, by simp⟩, rfl⟩
    · intro hk
      rw [hf, if_neg (by omega)]

/-! ## Powerup colours (C16) -/

theorem construct_wallRng_isSome : (construct 1 wallRng).isSome = true := by
  decide!

theorem wallState_reachable : Reachable wallState := by
  have hs := construct_wallRng_isSome
  cases h : construct 1 wallRng with
  | none =>
    rw [h] at hs
    exact absurd hs (by decide)
  | some p =>
    have he : wallState = p.1 := by
      unfold wallState
      rw [h]
    rw [he]
    exact Reachable.construct 1 wallRng p.1 p.2 h

theorem explodeRay_powerup_rolls (bomb : Bomb) (dir : Dir) :
    ∀ (n i : Nat) (rng : Rng) (g : Game),
      (explodeRay bomb dir n i rng g).1.powerups = g.powerups ∨
        ∃ x y, (rng 0).below 3 10 = true ∧
          (explodeRay bomb dir n i rng g).1.powerups =
            g.powerups ++
              [⟨x, y, if (rng 1).below 1 2 = true then PowerupType.bomb else PowerupType.range,
                if (rng 2).below 1 2 = true then PowerupColor.green else PowerupColor.blue⟩] := by
  intro n
  induction n with
  | zero =>
    intro i rng g
    exact Or.inl rfl
  | succ n ih =>
    intro i rng g
    unfold explodeRay
    dsimp only
    split
    · exact Or.inl rfl
    · split
      · exact Or.inl rfl
      · split
        · split
          · rename_i hs
            exact Or.inr ⟨_, _, hs, rfl⟩
          · exact Or.inl rfl
        · exact ih (i + 1) rng { g with explosions := g.explosions ++
            [⟨bomb.x + dir.x * (i : Int), bomb.y + dir.y * (i : Int), 30⟩] }

/-- C16, counterexample: in the reachable state `wallState` (one breakable wall, at
(3,1)) the bomb at (1,1) spawns, for three outcomes of the rolls, a green 'bomb'
powerup, a blue 'bomb' powerup and a green 'range' powerup: the same type with two
colours, and two types with the same colour. -/
theorem powerup_color_not_from_type :
    Reachable wallState ∧
      (explodeBomb ⟨1, 1, 0, 2⟩ (spawnRng true true) wallState).1.powerups =
        [⟨3, 1, PowerupType.bomb, PowerupColor.green⟩] ∧
      (explodeBomb ⟨1, 1, 0, 2⟩ (spawnRng true false) wallState).1.powerups =
        [⟨3, 1, PowerupType.bomb, PowerupColor.blue⟩] ∧
      (explodeBomb ⟨1, 1, 0, 2⟩ (spawnRng false true) wallState).1.powerups =
        [⟨3, 1, PowerupType.range, PowerupColor.green⟩] := by
  refine ⟨wallState_reachable, ?_, ?_, ?_⟩
  · decide!
  · decide!
  · decide!

/-- C16, amended: a ray of a detonation spawns at most one powerup; its type is 'bomb'
or 'range' by the second roll of the spawn and its colour green or blue by the third
roll, whatever the type is; all four pairs of type and colour occur. -/
theorem powerup_color_own_roll :
    (∀ (bomb : Bomb) (dir : Dir) (n i : Nat) (rng : Rng) (g : Game),
      (explodeRay bomb dir n i rng g).1.powerups = g.powerups ∨
        ∃ x y, (rng 0).below 3 10 = true ∧
          (explodeRay bomb dir n i rng g).1.powerups =
            g.powerups ++
              [⟨x, y, if (rng 1).below 1 2 = true then PowerupType.bomb else PowerupType.range,
                if (rng 2).below 1 2 = true then PowerupColor.green
                else PowerupColor.blue⟩]) ∧
      (∀ t c : Bool,
        (explodeBomb ⟨1, 1, 0, 2⟩ (spawnRng t c) wallState).1.powerups =
          [⟨3, 1, if t = true then PowerupType.bomb else PowerupType.range,
            if c = true then PowerupColor.green else PowerupColor.blue⟩]) := by
  refine ⟨fun bomb dir n i rng g => explodeRay_powerup_rolls bomb dir n i rng g, ?_⟩
  intro t c
  cases t <;> cases c <;> decide!

/-! ## A level with no place for an enemy (C19) -/

theorem drop_drop (rng : Rng) (a b : Nat) : (rng.drop a).drop b = rng.drop (a + b) := by
  funext n
  show rng (n + b + a) = rng (n + (a + b))
  congr 1
  omega

theorem drop_zero (rng : Rng) : rng.drop 0 = rng :=
  rfl

theorem genCell_snd (row col : Nat) (rng : Rng) :
    (genCell row col rng).2 = rng.drop (cellCost row col) := by
  by_cases hb : row = 0 ∨ row = rows - 1 ∨ col = 0 ∨ col = cols - 1
  · have hc : row = 0 ∨ row = rows - 1 ∨ col = 0 ∨ col = cols - 1 ∨
        (row % 2 = 0 ∧ col % 2 = 0) := by tauto
    unfold genCell cellCost
    rw [if_pos hb, if_pos hc]
    rfl
  · by_cases he : row % 2 = 0 ∧ col % 2 = 0
    · have hc : row = 0 ∨ row = rows - 1 ∨ col = 0 ∨ col = cols - 1 ∨
          (row % 2 = 0 ∧ col % 2 = 0) := by tauto
      unfold genCell cellCost
      rw [if_neg hb, if_pos he, if_pos hc]
      rfl
    · have hc : ¬ (row = 0 ∨ row = rows - 1 ∨ col = 0 ∨ col = cols - 1 ∨
          (row % 2 = 0 ∧ col % 2 = 0)) := by tauto
      unfold genCell cellCost
      rw [if_neg hb, if_neg he, if_neg hc]
      split <;> rfl

theorem genRow_snd (row : Nat) :
    ∀ (n col : Nat) (rng : Rng), (genRow row n col rng).2 = rng.drop (rowCost row n col) := by
  intro n
  induction n with
  | zero =>
    intro col rng
    rfl
  | succ n ih =>
    intro col rng
    unfold genRow rowCost
    dsimp only
    rw [ih, genCell_snd, drop_drop]

theorem genRow_get (row : Nat) :
    ∀ (n col : Nat) (rng : Rng) (k : Nat), k < n →
      (genRow row n col rng).1[k]? =
        some (genCell row (col + k) (rng.drop (rowCost row k col))).1 := by
  intro n
  induction n with
  | zero =>
    intro col rng k hk
    exact absurd hk (Nat.not_lt_zero k)
  | succ n ih =>
    intro col rng k hk
    cases k with
    | zero =>
      simp [genRow, rowCost, drop_zero]
    | succ k =>
      unfold genRow
      dsimp only
      rw [List.getElem?_cons_succ, ih (col + 1) _ k (by omega), genCell_snd, drop_drop]
      have h1 : col + 1 + k = col + (k + 1) := by omega
      rw [h1]
      rfl

theorem genRows_get :
    ∀ (n row : Nat) (rng : Rng) (k : Nat), k < n →
      (genRows n row rng).1[k]? =
        some (genRow (row + k) cols 0 (rng.drop (rowsCost k row))).1 := by
  intro n
  induction n with
  | zero =>
    intro row rng k hk
    exact absurd hk (Nat.not_lt_zero k)
  | succ n ih =>
    intro row rng k hk
    cases k with
    | zero =>
      simp [genRows, rowsCost, drop_zero]
    | succ k =>
      unfold genRows
      dsimp only
      rw [List.getElem?_cons_succ, ih (row + 1) _ k (by omega), genRow_snd, drop_drop]
      have h1 : row + 1 + k = row + (k + 1) := by omega
      rw [h1]
      rfl

theorem cellAt_genRows_exact (rng : Rng) (x y : Int) (h : InBounds x y) :
    cellAt (genRows rows 0 rng).1 x y =
      some (genCell y.toNat x.toNat
        (rng.drop (rowsCost y.toNat 0 + rowCost y.toNat x.toNat 0))).1 := by
  unfold InBounds at h
  have hy : y.toNat < rows := by omega
  have hx : x.toNat < cols := by omega
  unfold cellAt
  rw [if_neg (by omega), genRows_get rows 0 rng y.toNat hy]
  dsimp only
  rw [Nat.zero_add, genRow_get y.toNat cols 0 _ x.toNat hx, Nat.zero_add, drop_drop]

theorem roll_offsets_lt :
    (List.range rows).all (fun y => (List.range cols).all (fun x =>
      decide (cellCost y x = 1 → rowsCost y 0 + rowCost y x 0 < 180))) = true := by
  decide!

theorem roll_offset_lt (x y : Nat) (hy : y < rows) (hx : x < cols) (hc : cellCost y x = 1) :
    rowsCost y 0 + rowCost y x 0 < 180 := by
  have h := roll_offsets_lt
  rw [List.all_eq_true] at h
  have h1 := h y (List.mem_range.2 hy)
  rw [List.all_eq_true] at h1
  have h2 := h1 x (List.mem_range.2 hx)
  exact (of_decide_eq_true h2) hc

theorem genCell_zero_of_low (row col : Nat) (rng : Rng)
    (hlow : cellCost row col = 1 → (rng 0).below 3 10 = true)
    (h0 : (genCell row col rng).1 = 0) : row ≤ 2 ∧ col ≤ 2 := by
  by_cases hb : row = 0 ∨ row = rows - 1 ∨ col = 0 ∨ col = cols - 1
  · unfold genCell at h0
    rw [if_pos hb] at h0
    simp at h0
  · by_cases he : row % 2 = 0 ∧ col % 2 = 0
    · unfold genCell at h0
      rw [if_neg hb, if_pos he] at h0
      simp at h0
    · have hc : ¬ (row = 0 ∨ row = rows - 1 ∨ col = 0 ∨ col = cols - 1 ∨
          (row % 2 = 0 ∧ col % 2 = 0)) := by tauto
      have hcost : cellCost row col = 1 := by
        unfold cellCost
        rw [if_neg hc]
      have hroll := hlow hcost
      unfold genCell at h0
      rw [if_neg hb, if_neg he, hroll] at h0
      by_cases h3 : row ≤ 2 ∧ col ≤ 2
      · exact h3
      · exfalso
        have h4 : (true && !(decide (row ≤ 2) && decide (col ≤ 2))) = true := by
          simp only [Bool.true_and, Bool.not_eq_true', Bool.and_eq_false_iff,
            decide_eq_false_iff_not]
          tauto
        rw [if_pos h4] at h0
        simp at h0

theorem generateMap_low_empty (rng : Rng) (hlow : ∀ n, n < 180 → (rng n).below 3 10 = true)
    (x y : Int) (h0 : cellAt (generateMap rng).1 x y = some 0) : x ≤ 2 ∧ y ≤ 2 := by
  have hraw : ∀ x y, cellAt (genRows rows 0 rng).1 x y = some 0 → x ≤ 2 ∧ y ≤ 2 := by
    intro x y h
    rcases cellAt_genRows rng x y with ⟨_, hn⟩ | ⟨hin, _⟩
    · rw [hn] at h
      exact absurd h (by simp)
    · rw [cellAt_genRows_exact rng x y hin] at h
      simp only [Option.some.injEq] at h
      have hb := hin
      unfold InBounds at hb
      have := genCell_zero_of_low y.toNat x.toNat _ (fun hc => by
        have hlt := roll_offset_lt x.toNat y.toNat (by omega) (by omega) hc
        have := hlow _ hlt
        simpa [Rng.drop] using this) h
      omega
  have hstep : ∀ (m : Grid) (a b : Int), a ≤ 2 → b ≤ 2 →
      (∀ x y, cellAt m x y = some 0 → x ≤ 2 ∧ y ≤ 2) →
      ∀ x y, cellAt (setCell m a b 0) x y = some 0 → x ≤ 2 ∧ y ≤ 2 := by
    intro m a b ha hb hm x y h
    rw [cellAt_setCell] at h
    split at h
    · rename_i hc
      obtain ⟨rfl, rfl, _⟩ := hc
      exact ⟨ha, hb⟩
    · exact hm x y h
  exact hstep _ 1 2 (by decide) (by decide)
    (hstep _ 2 1 (by decide) (by decide) (hstep _ 1 1 (by decide) (by decide) hraw)) x y h0

theorem placeEnemy_none (m : Grid) (hm : ∀ x y, cellAt m x y = some 0 → x ≤ 3 ∧ y ≤ 3) :
    ∀ (fuel : Nat) (rng : Rng), placeEnemy fuel m rng = none := by
  intro fuel
  induction fuel with
  | zero =>
    intro rng
    rfl
  | succ fuel ih =>
    intro rng
    unfold placeEnemy
    dsimp only
    rw [if_pos]
    · exact ih _
    · by_cases h : cellAt m (((rng 0).floorMul (cols - 2) : Nat) + 1)
          (((rng 1).floorMul (rows - 2) : Nat) + 1) = some 0
      · exact Or.inr (hm _ _ h)
      · exact Or.inl h

/-- C19: if the 180 rolls of the map loops are all below 0.3, the generated grid has no
empty cell outside the region x <= 3 and y <= 3 (its only empty cells have x <= 2 and
y <= 2), so the placement loop never meets its exit condition: whatever the position
draws are, `initializeLevel` returns no result for any amount of fuel. -/
theorem initializeLevel_never_finishes (rng : Rng)
    (hlow : ∀ n, n < 180 → (rng n).below 3 10 = true) :
    (∀ x y, cellAt (generateMap rng).1 x y = some 0 → x ≤ 3 ∧ y ≤ 3) ∧
      (∀ fuel draws, placeEnemy fuel (generateMap rng).1 draws = none) ∧
      ∀ fuel g, 0 < 3 + g.level → initializeLevel fuel rng g = none := by
  have hm : ∀ x y, cellAt (generateMap rng).1 x y = some 0 → x ≤ 3 ∧ y ≤ 3 := by
    intro x y h
    have := generateMap_low_empty rng hlow x y h
    omega
  refine ⟨hm, fun fuel draws => placeEnemy_none _ hm fuel draws, ?_⟩
  intro fuel g hl
  unfold initializeLevel
  dsimp only
  obtain ⟨n, hn⟩ : ∃ n, (3 + g.level).toNat = n + 1 := ⟨(3 + g.level).toNat - 1, by omega⟩
  rw [hn]
  unfold addEnemies
  rw [placeEnemy_none _ hm]

/-- Witness of `initializeLevel_never_finishes`: the first 180 rolls are 0, the position
draws are `1 / 2`. -/
theorem initializeLevel_never_finishes_witness :
    (∀ n, n < 180 → (lowThenHalf n).below 3 10 = true) ∧
      (∀ x y, cellAt (generateMap lowThenHalf).1 x y = some 0 → x ≤ 3 ∧ y ≤ 3) ∧
      (∀ fuel draws, placeEnemy fuel (generateMap lowThenHalf).1 draws = none) ∧
      ∀ fuel g, 0 < 3 + g.level → initializeLevel fuel lowThenHalf g = none :=
  have h : ∀ n, n < 180 → (lowThenHalf n).below 3 10 = true := by
    intro n hn
    unfold lowThenHalf
    rw [if_pos hn]
    decide
  ⟨h, initializeLevel_never_finishes lowThenHalf h⟩

/-! ## Longer runs -/

theorem afterTicks_reachable (rng : Rng) (ks : List Keys) (g : Game) (hg : Reachable g)
    (hs : (runTicks 1 rng ks g).isSome = true) : Reachable (afterTicks rng ks g) := by
  cases h : runTicks 1 rng ks g with
  | none =>
    rw [h] at hs
    exact absurd hs (by decide)
  | some g1 =>
    have he : afterTicks rng ks g = g1 := by
      unfold afterTicks
      rw [h]
    rw [he]
    exact runTicks_reachable 1 rng ks g g1 hg h

set_option maxRecDepth 1000000 in
theorem gameOverState_reachable : Reachable gameOverState :=
  afterTicks_reachable halfRng hitWalk initialState initialState_reachable (by decide!)

set_option maxRecDepth 1000000 in
theorem preClearState_reachable : Reachable preClearState :=
  afterTicks_reachable halfRng retreatKeys _
    (Reachable.dropBomb _
      (afterTicks_reachable halfRng bombWalk initialState initialState_reachable
        (by decide!)))
    (by decide!)

set_option maxRecDepth 1000000 in
theorem upgradedState_reachable : Reachable upgradedState :=
  afterTicks_reachable halfRng fetchKeys _
    (afterTicks_reachable (spawnRng true false) [noKeys] _
      (afterTicks_reachable halfRng coverKeys _
        (Reachable.dropBomb _ wallState_reachable) (by decide!))
      (by decide!))
    (by decide!)

set_option maxRecDepth 1000000 in
theorem twoBombState_reachable : Reachable twoBombState :=
  Reachable.dropBomb _
    (afterTicks_reachable halfRng [keysDown] _
      (Reachable.dropBomb _ upgradedState_reachable) (by decide!))

set_option maxRecDepth 1000000 in
/-- Witness of `bombs_distinct_cells` at `twoBombState`, a reachable state with two
bombs: after the pickup of a 'bomb' powerup the player has dropped one bomb at (3,1)
and one at (3,2). -/
theorem bombs_distinct_cells_witness :
    Reachable twoBombState ∧
      twoBombState.bombs = [⟨3, 1, 119, 2⟩, ⟨3, 2, 120, 2⟩] ∧
      twoBombState.bombs.Pairwise (fun a b => ¬ (a.x = b.x ∧ a.y = b.y)) :=
  ⟨twoBombState_reachable, by decide!, bombs_distinct_cells twoBombState twoBombState_reachable⟩

set_option maxRecDepth 1000000 in
/-- Witness of `lives_between_zero_and_three` at `gameOverState`, the reachable state in
which the third hit has taken the last life: the lives are 0, the game has stopped and
`update` returns the state as it is. -/
theorem lives_between_zero_and_three_witness :
    Reachable gameOverState ∧ gameOverState.lives = 0 ∧
      gameOverState.gameRunning = false ∧
      (0 ≤ gameOverState.lives ∧ gameOverState.lives ≤ 3 ∧
        (gameOverState.gameRunning = true ↔ 0 < gameOverState.lives) ∧
        (gameOverState.lives = 0 →
          ∀ fuel keys rng, update fuel keys rng gameOverState = some (gameOverState, rng))) ∧
      ∀ fuel keys rng, update fuel keys rng gameOverState = some (gameOverState, rng) :=
  have h0 : gameOverState.lives = 0 := by decide!
  ⟨gameOverState_reachable, h0, by decide!,
    lives_between_zero_and_three gameOverState gameOverState_reachable,
    (lives_between_zero_and_three gameOverState gameOverState_reachable).2.2.2 h0⟩

theorem initializeLevel_none_of_low (rng : Rng)
    (hlow : ∀ n, n < 180 → (rng n).below 3 10 = true) (fuel : Nat) (g : Game)
    (hl : 0 < 3 + g.level) : initializeLevel fuel rng g = none := by
  have hm : ∀ x y, cellAt (generateMap rng).1 x y = some 0 → x ≤ 3 ∧ y ≤ 3 := by
    intro x y h
    have := generateMap_low_empty rng hlow x y h
    omega
  unfold initializeLevel
  dsimp only
  obtain ⟨n, hn⟩ : ∃ n, (3 + g.level).toNat = n + 1 := ⟨(3 + g.level).toNat - 1, by omega⟩
  rw [hn]
  unfold addEnemies
  rw [placeEnemy_none _ hm]

theorem update_running_eq (fuel : Nat) (keys : Keys) (rng : Rng) (g : Game)
    (hr : g.gameRunning = true) :
    update fuel keys rng g =
      if (checkCollisions (beforeCollisions keys rng g)).enemies.length = 0 then
        nextLevel fuel (rollsAtWinCheck keys rng g) (checkCollisions (beforeCollisions keys rng g))
      else some (checkCollisions (beforeCollisions keys rng g), rollsAtWinCheck keys rng g) := by
  unfold update
  rw [if_neg (by simp [hr])]
  rfl

set_option maxRecDepth 1000000 in
/-- C15, counterexample: in the reachable running state `preClearState` the next tick
detonates the bomb at (5,7), the explosion removes all four enemies, and `update` calls
`nextLevel` with the rolls that are left.  When the tick's rolls are `lowThenHalf`, these
180 rolls are all below 0.3, and neither `nextLevel` nor the tick returns a result, for
any amount of fuel: the level is not increased. -/
theorem nextLevel_may_not_return :
    Reachable preClearState ∧ preClearState.gameRunning = true ∧
      (checkCollisions (beforeCollisions noKeys lowThenHalf preClearState)).enemies = [] ∧
      (∀ fuel, nextLevel fuel (rollsAtWinCheck noKeys lowThenHalf preClearState)
        (checkCollisions (beforeCollisions noKeys lowThenHalf preClearState)) = none) ∧
      ∀ fuel, update fuel noKeys lowThenHalf preClearState = none := by
  have hr : preClearState.gameRunning = true := by decide!
  have he : (checkCollisions (beforeCollisions noKeys lowThenHalf preClearState)).enemies =
      [] := by decide!
  have hl : (checkCollisions (beforeCollisions noKeys lowThenHalf preClearState)).level =
      1 := by decide!
  have hlow : ∀ n, n < 180 →
      ((rollsAtWinCheck noKeys lowThenHalf preClearState) n).below 3 10 = true := by
    decide!
  have hn : ∀ fuel, nextLevel fuel (rollsAtWinCheck noKeys lowThenHalf preClearState)
      (checkCollisions (beforeCollisions noKeys lowThenHalf preClearState)) = none := by
    intro fuel
    unfold nextLevel
    apply initializeLevel_none_of_low _ hlow
    show 0 < 3 + ((checkCollisions (beforeCollisions noKeys lowThenHalf preClearState)).level
      + 1)
    rw [hl]
    decide
  refine ⟨preClearState_reachable, hr, he, hn, ?_⟩
  intro fuel
  rw [update_running_eq fuel noKeys lowThenHalf preClearState hr, he]
  simp only [List.length_nil, if_true]
  exact hn fuel

set_option maxRecDepth 1000000 in
/-- Witness of `nextLevel_spec` at `clearedState`, the state without enemies that
`update` hands to `nextLevel` in tick 130 of the run through `preClearState`. -/
theorem nextLevel_spec_witness :
    ∃ g1 r, clearedState.enemies = [] ∧
      nextLevel 1 halfRng clearedState = some (g1, r) ∧
      g1.level = clearedState.level + 1 ∧ g1.score = clearedState.score + 500 ∧
      g1.player = clearedState.player ∧ g1.lives = clearedState.lives ∧
      g1.bombs = clearedState.bombs ∧ g1.explosions = clearedState.explosions ∧
      g1.powerups = clearedState.powerups ∧ g1.gameRunning = clearedState.gameRunning ∧
      g1.map = (generateMap halfRng).1 ∧
      g1.enemies.length = (3 + (clearedState.level + 1)).toNat ∧
      (∀ e ∈ g1.enemies, cellAt g1.map e.x e.y = some 0) ∧
      ∀ es m, nextLevel 1 halfRng { clearedState with enemies := es, map := m } =
        some (g1, r) := by
  have he : clearedState.enemies = [] := by decide!
  have hs : (nextLevel 1 halfRng clearedState).isSome = true := by decide!
  cases h : nextLevel 1 halfRng clearedState with
  | none =>
    rw [h] at hs
    exact absurd hs (by decide)
  | some p => exact ⟨p.1, p.2, he, rfl, nextLevel_spec 1 halfRng clearedState p.1 p.2 h⟩

end Bombman
